import Mathlib

/-!
Verification development for the agent-sandbox control plane.

The definitions below are shallow embeddings of the Go sources:
  * the per-sandbox stream hub (`stream.go`: `execEvent`, `streamHub`,
    `newStreamHub`, `nextSeq`, `bufferFor`, `publish`, `subscribe`,
    `unsubscribe`),
  * the exec registry (`exec_registry.go`: `execRecord`, `finish`,
    `exitCodeFromErr`),
  * the shell wrapping helpers (`main.go`: `shellQuote`, `shellJoin`,
    `wrapCommandForSidecar`, `generateID`, `validID`, `handleSandboxes`,
    `execSandbox`, `execCommandStream`),
  * the warm pool claim path (`warm.go`: `claimWarmNamespace`),
  * the idle reaper (`reaper.go`: `reapOnce`),
  * the sidecar forwarder (`sidecar/cmd/streamer/main.go`: `pump`,
    `hasPendingOutput`, `parseEventFile`, `readNew`).

Stateful Go code is modelled by explicit state passing; mutex-guarded
operations are modelled as atomic steps of a sequential trace (each
operation in the source runs under the relevant lock).  Channels are
modelled with their full send history so that best-effort delivery and
drops stay observable.
-/

/-- ASCII single quote (39), double quote (34) and backtick (96), named
for use in the shell-quoting helpers. -/
def squoteChar : Char := Char.ofNat 39

def dquoteChar : Char := Char.ofNat 34

def backtickChar : Char := Char.ofNat 96

/-- Association-list lookup, first match wins (models Go map indexing). -/
def alistFind {α : Type} (k : String) : List (String × α) → Option α
  | [] => none
  | (k2, v) :: rest => if k2 = k then some v else alistFind k rest

/-- Association-list insert-or-replace (models Go map assignment). -/
def alistPut {α : Type} (k : String) (v : α) : List (String × α) → List (String × α)
  | [] => [(k, v)]
  | (k2, v2) :: rest =>
    if k2 = k then (k, v) :: rest else (k2, v2) :: alistPut k v rest

/-- Nat-keyed association-list lookup. -/
def nlistFind {α : Type} (k : Nat) : List (Nat × α) → Option α
  | [] => none
  | (k2, v) :: rest => if k2 = k then some v else nlistFind k rest

/-- Nat-keyed association-list update of an existing key by a function. -/
def nlistModify {α : Type} (k : Nat) (f : α → α) : List (Nat × α) → List (Nat × α)
  | [] => []
  | (k2, v) :: rest =>
    if k2 = k then (k2, f v) :: rest else (k2, v) :: nlistModify k f rest

/-- The last `n` elements of a list. -/
def takeLast {α : Type} (n : Nat) (xs : List α) : List α :=
  xs.drop (xs.length - n)

/-- One exec event as carried by the control-plane stream hub (`execEvent`). -/
structure execEvent where
  sandboxID : String
  execID : String
  seq : Int
  type : String
  stream : String
  data : String
  exitCode : Int
  time : String
  deriving DecidableEq

/-- Per-sandbox ring buffer plus registered subscriber channels
(`streamBuffer`; subscribers are identified by the order of creation). -/
structure streamBuffer where
  events : List execEvent
  subs : List Nat
  deriving DecidableEq

/-- A subscriber channel: the buffered queue (capacity 128 in the source),
the history of everything successfully sent to it, the history of events
dropped because the queue was full, and whether it was closed. -/
structure chanState where
  queue : List execEvent
  sent : List execEvent
  dropped : List execEvent
  closed : Bool
  deriving DecidableEq

/-- Fresh subscriber channel as made by `subscribe`. -/
def newChan : chanState :=
  { queue := [], sent := [], dropped := [], closed := false }

/-- Whole-hub state (`streamHub`), with a ghost field `published` recording
every event ever published (specification bookkeeping only). -/
structure hubState where
  seqCounter : Int
  buffers : List (String × streamBuffer)
  chans : List (Nat × chanState)
  nextCh : Nat
  limit : Nat
  published : List execEvent
  deriving DecidableEq

/-- `newStreamHub`: a non-positive limit falls back to 200. -/
def newStreamHub (limit : Int) : hubState :=
  { seqCounter := 0
    buffers := []
    chans := []
    nextCh := 0
    limit := (if limit ≤ 0 then (200 : Int) else limit).toNat
    published := [] }

/-- `bufferFor`: look the sandbox buffer up, creating it empty on demand. -/
def bufferFor (st : hubState) (sandboxID : String) : streamBuffer :=
  match alistFind sandboxID st.buffers with
  | some buf => buf
  | none => { events := [], subs := [] }

/-- The ring append step of `publish`: on overflow the oldest event is
evicted (`copy` shifts left, the last slot takes the new event). -/
def ringAppend (events : List execEvent) (evt : execEvent) (limit : Nat) :
    List execEvent :=
  if limit ≤ events.length then events.drop 1 ++ [evt] else events ++ [evt]

/-- The effect of one non-blocking best-effort send on a channel: a full
queue (128 buffered events in the source) drops the event for that
subscriber only.  A closed channel is inert (the source never sends on a
closed channel because `unsubscribe` removes the channel from the
subscriber set under the same lock). -/
def sendStep (evt : execEvent) (c : chanState) : chanState :=
  if c.closed then c
  else if c.queue.length < 128 then
    { c with queue := c.queue ++ [evt], sent := c.sent ++ [evt] }
  else
    { c with dropped := c.dropped ++ [evt] }

/-- Apply the best-effort send to one subscriber channel. -/
def chanSend (chans : List (Nat × chanState)) (ch : Nat) (evt : execEvent) :
    List (Nat × chanState) :=
  nlistModify ch (sendStep evt) chans

/-- Deliver one event to every registered subscriber of the buffer. -/
def deliverAll (subs : List Nat) (chans : List (Nat × chanState))
    (evt : execEvent) : List (Nat × chanState) :=
  match subs with
  | [] => chans
  | ch :: rest => deliverAll rest (chanSend chans ch evt) evt

/-- Operations accepted by the hub.  In the source every `publish` call
site first draws `nextSeq()` and hands the event straight to `publish`;
both run under hub locks, so the pair is modelled as one atomic step. -/
inductive hubOp where
  | publish (evt : execEvent)
  | subscribe (sandboxID : String)
  | recv (ch : Nat)
  | unsubscribe (sandboxID : String) (ch : Nat)
  deriving DecidableEq

/-- One hub step. -/
def hubStep (st : hubState) (op : hubOp) : hubState :=
  match op with
  | .publish evt0 =>
    let evt := { evt0 with seq := st.seqCounter + 1 }
    let buf := bufferFor st evt.sandboxID
    { st with
      seqCounter := st.seqCounter + 1
      buffers := alistPut evt.sandboxID
        { buf with events := ringAppend buf.events evt st.limit } st.buffers
      chans := deliverAll buf.subs st.chans evt
      published := st.published ++ [evt] }
  | .subscribe sandboxID =>
    let buf := bufferFor st sandboxID
    { st with
      buffers := alistPut sandboxID
        { buf with subs := buf.subs ++ [st.nextCh] } st.buffers
      chans := st.chans ++ [(st.nextCh, newChan)]
      nextCh := st.nextCh + 1 }
  | .recv ch =>
    { st with chans := nlistModify ch (fun c => { c with queue := c.queue.drop 1 }) st.chans }
  | .unsubscribe sandboxID ch =>
    let buf := bufferFor st sandboxID
    { st with
      buffers := alistPut sandboxID { buf with subs := buf.subs.erase ch } st.buffers
      chans := nlistModify ch (fun c => { c with closed := true }) st.chans }

/-- Run a trace of hub operations. -/
def runHub (st : hubState) : List hubOp → hubState
  | [] => st
  | op :: rest => runHub (hubStep st op) rest

/-- The snapshot copied out by `subscribe` under the buffer lock. -/
def subscribeSnapshot (st : hubState) (sandboxID : String) : List execEvent :=
  (bufferFor st sandboxID).events

/-- The events published for one sandbox, in publish order. -/
def pubsFor (s : String) : List execEvent → List execEvent
  | [] => []
  | e :: rest => if e.sandboxID = s then e :: pubsFor s rest else pubsFor s rest


/-! ### Generic lemmas about the helper functions -/

theorem takeLast_nil {α : Type} (n : Nat) : takeLast n ([] : List α) = [] := by
  simp [takeLast]

theorem takeLast_length_le {α : Type} (n : Nat) (xs : List α) :
    (takeLast n xs).length ≤ n := by
  simp [takeLast]; omega

theorem takeLast_sublist {α : Type} (n : Nat) (xs : List α) :
    List.Sublist (takeLast n xs) xs := List.drop_sublist _ _

theorem ringAppend_takeLast (n : Nat) (hn : 1 ≤ n) (h : List execEvent)
    (e : execEvent) :
    ringAppend (takeLast n h) e n = takeLast n (h ++ [e]) := by
  unfold ringAppend takeLast
  by_cases hlen : n ≤ h.length
  · have hc : n ≤ (h.drop (h.length - n)).length := by simp; omega
    rw [if_pos hc]
    have hle : h.length + 1 - n ≤ h.length := by omega
    have hlen2 : (h ++ [e]).length - n = h.length + 1 - n := by
      simp only [List.length_append, List.length_cons, List.length_nil]
      try omega
    rw [hlen2, List.drop_append_of_le_length hle]
    simp only [List.drop_drop]
    congr 2
    omega
  · have h0 : h.length - n = 0 := by omega
    have hc : ¬ n ≤ (h.drop (h.length - n)).length := by simp; omega
    rw [if_neg hc, h0, List.drop_zero]
    have h1 : (h ++ [e]).length - n = 0 := by
      simp only [List.length_append, List.length_cons, List.length_nil]; omega
    rw [h1, List.drop_zero]

theorem alistFind_put_self {α : Type} (k : String) (v : α)
    (l : List (String × α)) : alistFind k (alistPut k v l) = some v := by
  induction l with
  | nil => simp [alistPut, alistFind]
  | cons p rest ih =>
    obtain ⟨k2, v2⟩ := p
    by_cases hp : k2 = k
    · simp [alistPut, hp, alistFind]
    · simp [alistPut, hp, alistFind, ih]

theorem alistFind_put_ne {α : Type} (k k2 : String) (v : α)
    (l : List (String × α)) (hne : k ≠ k2) :
    alistFind k (alistPut k2 v l) = alistFind k l := by
  induction l with
  | nil => simp [alistPut, alistFind, Ne.symm hne]
  | cons p rest ih =>
    obtain ⟨k3, v3⟩ := p
    by_cases hp : k3 = k2
    · subst hp
      simp [alistPut, alistFind, Ne.symm hne]
    · by_cases hk : k3 = k
      · subst hk
        simp [alistPut, alistFind, hne]
      · simp [alistPut, hp, alistFind, hk, ih]

theorem nlistFind_modify_self {α : Type} (k : Nat) (f : α → α)
    (l : List (Nat × α)) :
    nlistFind k (nlistModify k f l) = (nlistFind k l).map f := by
  induction l with
  | nil => simp [nlistModify, nlistFind]
  | cons p rest ih =>
    obtain ⟨k2, v⟩ := p
    by_cases hp : k2 = k
    · simp [nlistModify, hp, nlistFind]
    · simp [nlistModify, hp, nlistFind, ih]

theorem nlistFind_modify_ne {α : Type} (k k2 : Nat) (f : α → α)
    (l : List (Nat × α)) (hne : k ≠ k2) :
    nlistFind k (nlistModify k2 f l) = nlistFind k l := by
  induction l with
  | nil => simp [nlistModify, nlistFind]
  | cons p rest ih =>
    obtain ⟨k3, v⟩ := p
    by_cases hp : k3 = k2
    · subst hp
      simp [nlistModify, nlistFind, Ne.symm hne]
    · by_cases hk : k3 = k
      · subst hk
        simp [nlistModify, nlistFind, hne]
      · simp [nlistModify, hp, nlistFind, hk, ih]

theorem nlistFind_append_left {α : Type} (k : Nat) (l l2 : List (Nat × α))
    (h : (nlistFind k l).isSome) :
    nlistFind k (l ++ l2) = nlistFind k l := by
  induction l with
  | nil => simp [nlistFind] at h
  | cons p rest ih =>
    obtain ⟨k2, v⟩ := p
    by_cases hp : k2 = k
    · simp [nlistFind, hp]
    · simp only [nlistFind, hp, if_false, List.cons_append] at *
      exact ih h

theorem nlistFind_append_fresh {α : Type} (k : Nat) (v : α)
    (l : List (Nat × α)) (h : ∀ p ∈ l, p.1 ≠ k) :
    nlistFind k (l ++ [(k, v)]) = some v := by
  induction l with
  | nil => simp [nlistFind]
  | cons p rest ih =>
    obtain ⟨k2, v2⟩ := p
    have hp : k2 ≠ k := h (k2, v2) (by simp)
    simp only [List.cons_append, nlistFind, if_neg hp]
    exact ih (fun q hq => h q (by simp [hq]))

theorem nlistModify_mem {α : Type} (P : Nat → α → Prop) (k : Nat) (f : α → α)
    (l : List (Nat × α)) (hl : ∀ p ∈ l, P p.1 p.2)
    (hf : ∀ k2 a, P k2 a → P k2 (f a)) :
    ∀ p ∈ nlistModify k f l, P p.1 p.2 := by
  induction l with
  | nil => simp [nlistModify]
  | cons q rest ih =>
    obtain ⟨k2, v⟩ := q
    intro p hp
    by_cases hq : k2 = k
    · simp only [nlistModify, hq, if_pos rfl] at hp
      rcases List.mem_cons.mp hp with h | h
      · subst h; exact hq ▸ hf k2 v (hl (k2, v) (by simp))
      · exact hl p (by simp [h])
    · simp only [nlistModify, hq, if_false, ite_false] at hp
      rcases List.mem_cons.mp hp with h | h
      · subst h; exact hl (k2, v) (by simp)
      · exact ih (fun r hr => hl r (by simp [hr])) p h

theorem nlistFind_modify_isSome {α : Type} (k k2 : Nat) (f : α → α)
    (l : List (Nat × α)) :
    (nlistFind k (nlistModify k2 f l)).isSome = (nlistFind k l).isSome := by
  by_cases hk : k = k2
  · subst hk; rw [nlistFind_modify_self]; cases nlistFind k l <;> simp
  · rw [nlistFind_modify_ne _ _ _ _ hk]

theorem pubsFor_append (s : String) (l1 l2 : List execEvent) :
    pubsFor s (l1 ++ l2) = pubsFor s l1 ++ pubsFor s l2 := by
  induction l1 with
  | nil => simp [pubsFor]
  | cons e rest ih =>
    by_cases he : e.sandboxID = s
    · simp [pubsFor, he, ih]
    · simp [pubsFor, he, ih]

theorem pubsFor_sublist (s : String) (l : List execEvent) :
    List.Sublist (pubsFor s l) l := by
  induction l with
  | nil => simp [pubsFor]
  | cons e rest ih =>
    by_cases he : e.sandboxID = s
    · simpa [pubsFor, he] using ih.cons₂ e
    · simpa [pubsFor, he] using ih.cons e

theorem nlistFind_append_right {α : Type} (k : Nat) (l l2 : List (Nat × α))
    (h : nlistFind k l = none) :
    nlistFind k (l ++ l2) = nlistFind k l2 := by
  induction l with
  | nil => simp
  | cons p rest ih =>
    obtain ⟨k2, v⟩ := p
    by_cases hp : k2 = k
    · simp [nlistFind, hp] at h
    · simp only [nlistFind, hp, if_false, ite_false, List.cons_append] at *
      exact ih h

theorem pubsFor_single (s : String) (e : execEvent) :
    pubsFor s [e] = if e.sandboxID = s then [e] else [] := by
  by_cases he : e.sandboxID = s <;> simp [pubsFor, he]

theorem deliverAll_find_notmem (subs : List Nat)
    (chans : List (Nat × chanState)) (evt : execEvent) (ch : Nat)
    (hch : ch ∉ subs) :
    nlistFind ch (deliverAll subs chans evt) = nlistFind ch chans := by
  induction subs generalizing chans with
  | nil => simp [deliverAll]
  | cons c rest ih =>
    have hne : ch ≠ c := fun h => hch (by simp [h])
    have hrest : ch ∉ rest := fun h => hch (by simp [h])
    simp only [deliverAll]
    rw [ih _ hrest, chanSend, nlistFind_modify_ne _ _ _ _ hne]

theorem deliverAll_find_mem (subs : List Nat)
    (chans : List (Nat × chanState)) (evt : execEvent) (ch : Nat)
    (hnd : subs.Nodup) (hch : ch ∈ subs) :
    nlistFind ch (deliverAll subs chans evt) =
      (nlistFind ch chans).map (sendStep evt) := by
  induction subs generalizing chans with
  | nil => simp at hch
  | cons c rest ih =>
    by_cases hc : ch = c
    · subst hc
      have hrest : ch ∉ rest := (List.nodup_cons.mp hnd).1
      simp only [deliverAll]
      rw [deliverAll_find_notmem _ _ _ _ hrest, chanSend, nlistFind_modify_self]
    · have hmem : ch ∈ rest := by
        rcases List.mem_cons.mp hch with h | h
        · exact absurd h hc
        · exact h
      simp only [deliverAll]
      rw [ih _ (List.nodup_cons.mp hnd).2 hmem, chanSend,
        nlistFind_modify_ne _ _ _ _ hc]

theorem deliverAll_mem {P : Nat → chanState → Prop} (subs : List Nat)
    (chans : List (Nat × chanState)) (evt : execEvent)
    (hl : ∀ p ∈ chans, P p.1 p.2)
    (hf : ∀ k a, P k a → P k (sendStep evt a)) :
    ∀ p ∈ deliverAll subs chans evt, P p.1 p.2 := by
  induction subs generalizing chans with
  | nil => simpa [deliverAll] using hl
  | cons c rest ih =>
    simp only [deliverAll]
    exact ih _ (nlistModify_mem P c (sendStep evt) chans hl (fun k a h => hf k a h))

/-- The hub state invariant maintained by every operation. -/
structure hubInv (st : hubState) : Prop where
  limit_pos : 1 ≤ st.limit
  ring : ∀ s, (bufferFor st s).events = takeLast st.limit (pubsFor s st.published)
  pubSeq : List.Pairwise (· < ·) (st.published.map execEvent.seq)
  pubBound : ∀ e2 ∈ st.published, e2.seq ≤ st.seqCounter
  chanKeys : ∀ p ∈ st.chans, p.1 < st.nextCh
  subKeys : ∀ s, ∀ ch ∈ (bufferFor st s).subs, ch < st.nextCh
  subsNodup : ∀ s, (bufferFor st s).subs.Nodup
  sentSeq : ∀ ch c, nlistFind ch st.chans = some c →
    List.Pairwise (· < ·) (c.sent.map execEvent.seq) ∧
      ∀ e2 ∈ c.sent, e2.seq ≤ st.seqCounter

theorem hubInv_new (limit : Int) : hubInv (newStreamHub limit) := by
  refine ⟨?_, ?_, ?_, ?_, ?_, ?_, ?_, ?_⟩
  · simp only [newStreamHub]
    split
    · simp
    · omega
  · intro s
    simp [newStreamHub, bufferFor, alistFind, pubsFor, takeLast]
  · simp [newStreamHub]
  · simp [newStreamHub]
  · simp [newStreamHub]
  · intro s
    simp [newStreamHub, bufferFor, alistFind]
  · intro s
    simp [newStreamHub, bufferFor, alistFind]
  · intro ch c h
    simp [newStreamHub, nlistFind] at h

theorem bufferFor_publish (st : hubState) (evt0 : execEvent) (s : String) :
    bufferFor (hubStep st (hubOp.publish evt0)) s =
      (if evt0.sandboxID = s then
        { bufferFor st s with
          events := ringAppend (bufferFor st s).events
            { evt0 with seq := st.seqCounter + 1 } st.limit }
      else bufferFor st s) := by
  by_cases hs : evt0.sandboxID = s
  · simp only [hubStep, bufferFor, if_pos hs]
    rw [show ({ evt0 with seq := st.seqCounter + 1 } : execEvent).sandboxID
        = evt0.sandboxID from rfl, hs, alistFind_put_self]
  · simp only [hubStep, bufferFor, if_neg hs]
    rw [show ({ evt0 with seq := st.seqCounter + 1 } : execEvent).sandboxID
        = evt0.sandboxID from rfl, alistFind_put_ne s evt0.sandboxID _ _
        (fun hc => hs hc.symm)]

theorem bufferFor_subscribe (st : hubState) (s0 s : String) :
    bufferFor (hubStep st (hubOp.subscribe s0)) s =
      (if s0 = s then
        { bufferFor st s with subs := (bufferFor st s).subs ++ [st.nextCh] }
      else bufferFor st s) := by
  by_cases hs : s0 = s
  · subst hs
    simp only [hubStep, bufferFor, if_pos rfl]
    rw [alistFind_put_self]
    simp
  · simp only [hubStep, bufferFor, if_neg hs]
    rw [alistFind_put_ne s s0 _ _ (fun hc => hs hc.symm)]

theorem bufferFor_unsubscribe (st : hubState) (s0 s : String) (ch : Nat) :
    bufferFor (hubStep st (hubOp.unsubscribe s0 ch)) s =
      (if s0 = s then
        { bufferFor st s with subs := (bufferFor st s).subs.erase ch }
      else bufferFor st s) := by
  by_cases hs : s0 = s
  · subst hs
    simp only [hubStep, bufferFor, if_pos rfl]
    rw [alistFind_put_self]
    simp
  · simp only [hubStep, bufferFor, if_neg hs]
    rw [alistFind_put_ne s s0 _ _ (fun hc => hs hc.symm)]

theorem bufferFor_recv (st : hubState) (ch : Nat) (s : String) :
    bufferFor (hubStep st (hubOp.recv ch)) s = bufferFor st s := rfl

theorem hubInv_step (st : hubState) (op : hubOp) (h : hubInv st) :
    hubInv (hubStep st op) := by
  cases op with
  | publish evt0 =>
    refine ⟨h.limit_pos, ?_, ?_, ?_, ?_, ?_, ?_, ?_⟩
    · intro s
      rw [bufferFor_publish]
      by_cases hs : evt0.sandboxID = s
      · have hpub : pubsFor s (st.published ++ [{ evt0 with seq := st.seqCounter + 1 }])
            = pubsFor s st.published ++ [{ evt0 with seq := st.seqCounter + 1 }] := by
          rw [pubsFor_append, pubsFor_single]
          simp [hs]
        simp only [if_pos hs, hubStep]
        rw [hpub, h.ring s, ringAppend_takeLast st.limit h.limit_pos]
      · have hpub : pubsFor s (st.published ++ [{ evt0 with seq := st.seqCounter + 1 }])
            = pubsFor s st.published := by
          rw [pubsFor_append, pubsFor_single]
          simp [hs]
        simp only [if_neg hs, hubStep]
        rw [hpub, h.ring s]
    · show List.Pairwise (· < ·)
        ((st.published ++ [{ evt0 with seq := st.seqCounter + 1 }]).map execEvent.seq)
      rw [List.map_append, List.pairwise_append]
      refine ⟨h.pubSeq, List.pairwise_singleton _ _, ?_⟩
      intro a ha b hb
      simp only [List.map_cons, List.map_nil, List.mem_singleton] at hb
      subst hb
      simp only [List.mem_map] at ha
      obtain ⟨e2, he2, rfl⟩ := ha
      have := h.pubBound e2 he2
      show e2.seq < st.seqCounter + 1
      omega
    · intro e2 hmem
      show e2.seq ≤ st.seqCounter + 1
      rcases List.mem_append.mp hmem with hm | hm
      · have := h.pubBound e2 hm
        omega
      · simp only [List.mem_singleton] at hm
        subst hm
        simp
    · exact deliverAll_mem (P := fun k _ => k < st.nextCh) _ _ _
        h.chanKeys (fun k a hk => hk)
    · intro s ch hch
      rw [bufferFor_publish] at hch
      by_cases hs : evt0.sandboxID = s
      · simp only [if_pos hs] at hch
        exact h.subKeys s ch hch
      · simp only [if_neg hs] at hch
        exact h.subKeys s ch hch
    · intro s
      rw [bufferFor_publish]
      by_cases hs : evt0.sandboxID = s
      · simp only [if_pos hs]
        exact h.subsNodup s
      · simp only [if_neg hs]
        exact h.subsNodup s
    · intro ch c hfind
      show List.Pairwise (· < ·) (c.sent.map execEvent.seq) ∧
        ∀ e2 ∈ c.sent, e2.seq ≤ st.seqCounter + 1
      have hnd : (bufferFor st
          ({ evt0 with seq := st.seqCounter + 1 } : execEvent).sandboxID).subs.Nodup :=
        h.subsNodup _
      by_cases hch : ch ∈ (bufferFor st
          ({ evt0 with seq := st.seqCounter + 1 } : execEvent).sandboxID).subs
      · rw [show (hubStep st (hubOp.publish evt0)).chans = deliverAll
            (bufferFor st ({ evt0 with seq := st.seqCounter + 1 } : execEvent).sandboxID).subs
            st.chans { evt0 with seq := st.seqCounter + 1 } from rfl,
          deliverAll_find_mem _ _ _ _ hnd hch] at hfind
        cases hold : nlistFind ch st.chans with
        | none => rw [hold] at hfind; simp at hfind
        | some c0 =>
          rw [hold] at hfind
          obtain ⟨hp0, hb0⟩ := h.sentSeq ch c0 hold
          have hc : c = sendStep { evt0 with seq := st.seqCounter + 1 } c0 := by
            exact (Option.some.injEq _ _).mp hfind |>.symm
          subst hc
          by_cases hcl : c0.closed = true
          · simp only [sendStep, hcl, if_true]
            exact ⟨hp0, fun e2 he2 => by have := hb0 e2 he2; omega⟩
          · simp only [Bool.not_eq_true] at hcl
            by_cases hq : c0.queue.length < 128
            · simp only [sendStep, hcl, Bool.false_eq_true, if_false, if_pos hq]
              constructor
              · rw [List.map_append, List.pairwise_append]
                refine ⟨hp0, List.pairwise_singleton _ _, ?_⟩
                intro a ha b hb
                simp only [List.map_cons, List.map_nil, List.mem_singleton] at hb
                subst hb
                simp only [List.mem_map] at ha
                obtain ⟨e2, he2, rfl⟩ := ha
                have := hb0 e2 he2
                show e2.seq < st.seqCounter + 1
                omega
              · intro e2 he2
                rcases List.mem_append.mp he2 with hm | hm
                · have := hb0 e2 hm; omega
                · simp only [List.mem_singleton] at hm
                  subst hm
                  simp
            · simp only [sendStep, hcl, Bool.false_eq_true, if_false, if_neg hq]
              exact ⟨hp0, fun e2 he2 => by have := hb0 e2 he2; omega⟩
      · rw [show (hubStep st (hubOp.publish evt0)).chans = deliverAll
            (bufferFor st ({ evt0 with seq := st.seqCounter + 1 } : execEvent).sandboxID).subs
            st.chans { evt0 with seq := st.seqCounter + 1 } from rfl,
          deliverAll_find_notmem _ _ _ _ hch] at hfind
        obtain ⟨hp0, hb0⟩ := h.sentSeq ch c hfind
        exact ⟨hp0, fun e2 he2 => by have := hb0 e2 he2; omega⟩
  | subscribe s0 =>
    refine ⟨h.limit_pos, ?_, h.pubSeq, h.pubBound, ?_, ?_, ?_, ?_⟩
    · intro s
      rw [bufferFor_subscribe]
      by_cases hs : s0 = s
      · simp only [if_pos hs]
        exact h.ring s
      · simp only [if_neg hs]
        exact h.ring s
    · intro p hp
      rcases List.mem_append.mp hp with hm | hm
      · have := h.chanKeys p hm
        show p.1 < st.nextCh + 1
        omega
      · simp only [List.mem_singleton] at hm
        subst hm
        show st.nextCh < st.nextCh + 1
        omega
    · intro s ch hch
      rw [bufferFor_subscribe] at hch
      show ch < st.nextCh + 1
      by_cases hs : s0 = s
      · simp only [if_pos hs] at hch
        rcases List.mem_append.mp hch with hm | hm
        · have := h.subKeys s ch hm; omega
        · simp only [List.mem_singleton] at hm; omega
      · simp only [if_neg hs] at hch
        have := h.subKeys s ch hch
        omega
    · intro s
      rw [bufferFor_subscribe]
      by_cases hs : s0 = s
      · simp only [if_pos hs]
        refine List.Nodup.append (h.subsNodup s) (List.nodup_singleton _) ?_
        intro a ha hb
        simp only [List.mem_singleton] at hb
        subst hb
        have := h.subKeys s st.nextCh ha
        omega
      · simp only [if_neg hs]
        exact h.subsNodup s
    · intro ch c hfind
      show List.Pairwise (· < ·) (c.sent.map execEvent.seq) ∧
        ∀ e2 ∈ c.sent, e2.seq ≤ st.seqCounter
      cases hold : nlistFind ch st.chans with
      | some c0 =>
        rw [show (hubStep st (hubOp.subscribe s0)).chans =
            st.chans ++ [(st.nextCh, newChan)] from rfl,
          nlistFind_append_left ch _ _ (by rw [hold]; rfl), hold] at hfind
        injection hfind with hcc
        subst hcc
        exact h.sentSeq ch c0 hold
      | none =>
        rw [show (hubStep st (hubOp.subscribe s0)).chans =
            st.chans ++ [(st.nextCh, newChan)] from rfl,
          nlistFind_append_right ch _ _ hold] at hfind
        by_cases hc : st.nextCh = ch
        · simp only [nlistFind, if_pos hc] at hfind
          injection hfind with hcc
          subst hcc
          simp [newChan]
        · simp only [nlistFind, if_neg hc] at hfind
          exact absurd hfind (by simp)
  | recv ch0 =>
    refine ⟨h.limit_pos, h.ring, h.pubSeq, h.pubBound, ?_, h.subKeys, h.subsNodup, ?_⟩
    · exact nlistModify_mem (fun k _ => k < st.nextCh) _ _ _
        h.chanKeys (fun k a hk => hk)
    · intro ch c hfind
      by_cases hc : ch = ch0
      · subst hc
        rw [show (hubStep st (hubOp.recv ch)).chans =
            nlistModify ch (fun c => { c with queue := c.queue.drop 1 }) st.chans
            from rfl, nlistFind_modify_self] at hfind
        cases hold : nlistFind ch st.chans with
        | none => rw [hold] at hfind; simp at hfind
        | some c0 =>
          rw [hold] at hfind
          injection hfind with hcc
          subst hcc
          exact h.sentSeq ch c0 hold
      · rw [show (hubStep st (hubOp.recv ch0)).chans =
            nlistModify ch0 (fun c => { c with queue := c.queue.drop 1 }) st.chans
            from rfl, nlistFind_modify_ne ch ch0 _ _ hc] at hfind
        exact h.sentSeq ch c hfind
  | unsubscribe s0 ch0 =>
    refine ⟨h.limit_pos, ?_, h.pubSeq, h.pubBound, ?_, ?_, ?_, ?_⟩
    · intro s
      rw [bufferFor_unsubscribe]
      by_cases hs : s0 = s
      · simp only [if_pos hs]
        exact h.ring s
      · simp only [if_neg hs]
        exact h.ring s
    · exact nlistModify_mem (fun k _ => k < st.nextCh) _ _ _
        h.chanKeys (fun k a hk => hk)
    · intro s ch hch
      rw [bufferFor_unsubscribe] at hch
      by_cases hs : s0 = s
      · simp only [if_pos hs] at hch
        exact h.subKeys s ch (List.mem_of_mem_erase hch)
      · simp only [if_neg hs] at hch
        exact h.subKeys s ch hch
    · intro s
      rw [bufferFor_unsubscribe]
      by_cases hs : s0 = s
      · simp only [if_pos hs]
        exact (h.subsNodup s).erase ch0
      · simp only [if_neg hs]
        exact h.subsNodup s
    · intro ch c hfind
      by_cases hc : ch = ch0
      · subst hc
        rw [show (hubStep st (hubOp.unsubscribe s0 ch)).chans =
            nlistModify ch (fun c => { c with closed := true }) st.chans
            from rfl, nlistFind_modify_self] at hfind
        cases hold : nlistFind ch st.chans with
        | none => rw [hold] at hfind; simp at hfind
        | some c0 =>
          rw [hold] at hfind
          injection hfind with hcc
          subst hcc
          exact h.sentSeq ch c0 hold
      · rw [show (hubStep st (hubOp.unsubscribe s0 ch0)).chans =
            nlistModify ch0 (fun c => { c with closed := true }) st.chans
            from rfl, nlistFind_modify_ne ch ch0 _ _ hc] at hfind
        exact h.sentSeq ch c hfind

theorem hubInv_runHub (st : hubState) (ops : List hubOp) (h : hubInv st) :
    hubInv (runHub st ops) := by
  induction ops generalizing st with
  | nil => exact h
  | cons op rest ih => exact ih _ (hubInv_step st op h)

theorem runHub_limit (st : hubState) (ops : List hubOp) :
    (runHub st ops).limit = st.limit := by
  induction ops generalizing st with
  | nil => rfl
  | cons op rest ih =>
    rw [runHub, ih]
    cases op <;> rfl

theorem runHub_published_prefix (st : hubState) (ops : List hubOp) :
    ∃ tail, (runHub st ops).published = st.published ++ tail := by
  induction ops generalizing st with
  | nil => exact ⟨[], by simp [runHub]⟩
  | cons op rest ih =>
    obtain ⟨tail, htail⟩ := ih (hubStep st op)
    cases op with
    | publish evt0 =>
      exact ⟨{ evt0 with seq := st.seqCounter + 1 } :: tail, by
        rw [runHub, htail]
        simp [hubStep]⟩
    | subscribe s0 => exact ⟨tail, by rw [runHub, htail]; rfl⟩
    | recv ch => exact ⟨tail, by rw [runHub, htail]; rfl⟩
    | unsubscribe s0 ch => exact ⟨tail, by rw [runHub, htail]; rfl⟩

/-- Claim C5: for every sequence of hub operations, each sandbox's ring
buffer holds at most N events (N being the configured stream buffer limit,
defaulting to 200 when the configured value is not positive), its contents
are exactly the most recent N events published for that sandbox in publish
order, and the seq values in the buffer are strictly increasing in
insertion order. -/
theorem ring_holds_most_recent (limit : Int) (ops : List hubOp) (s : String) :
    (bufferFor (runHub (newStreamHub limit) ops) s).events
      = takeLast (if limit ≤ 0 then (200 : Int) else limit).toNat
          (pubsFor s (runHub (newStreamHub limit) ops).published) ∧
    (bufferFor (runHub (newStreamHub limit) ops) s).events.length
      ≤ (if limit ≤ 0 then (200 : Int) else limit).toNat ∧
    List.Pairwise (· < ·)
      ((bufferFor (runHub (newStreamHub limit) ops) s).events.map execEvent.seq) := by
  have hinv := hubInv_runHub (newStreamHub limit) ops (hubInv_new limit)
  have hring := hinv.ring s
  have hlim : (runHub (newStreamHub limit) ops).limit
      = (if limit ≤ 0 then (200 : Int) else limit).toNat := by
    rw [runHub_limit]
    rfl
  rw [hlim] at hring
  refine ⟨hring, ?_, ?_⟩
  · rw [hring]
    exact takeLast_length_le _ _
  · have hsub : List.Sublist
        ((bufferFor (runHub (newStreamHub limit) ops) s).events.map execEvent.seq)
        ((runHub (newStreamHub limit) ops).published.map execEvent.seq) := by
      apply List.Sublist.map
      rw [hring]
      exact (takeLast_sublist _ _).trans (pubsFor_sublist _ _)
    exact hinv.pubSeq.sublist hsub

theorem pubsFor_runHub_none (ops : List hubOp) (st : hubState) (s : String)
    (hops : ∀ evt, hubOp.publish evt ∈ ops → evt.sandboxID ≠ s)
    (hst : pubsFor s st.published = []) :
    pubsFor s (runHub st ops).published = [] := by
  induction ops generalizing st with
  | nil => exact hst
  | cons op rest ih =>
    rw [runHub]
    refine ih _ (fun evt hevt => hops evt (by simp [hevt])) ?_
    cases op with
    | publish evt0 =>
      have hne : evt0.sandboxID ≠ s := hops evt0 (by simp)
      show pubsFor s (st.published ++ [{ evt0 with seq := st.seqCounter + 1 }]) = []
      rw [pubsFor_append, pubsFor_single, hst]
      simp [hne]
    | subscribe s0 => exact hst
    | recv ch => exact hst
    | unsubscribe s0 ch => exact hst

/-- Claim C9: subscribing to a sandbox id with no published events never
fails: the buffer is created empty on demand, the snapshot is empty, the
new channel is registered, and a subsequent publish for that sandbox is
delivered to it. -/
theorem subscribe_fresh_sandbox (limit : Int) (ops : List hubOp) (s : String)
    (hops : ∀ evt, hubOp.publish evt ∈ ops → evt.sandboxID ≠ s) :
    subscribeSnapshot (runHub (newStreamHub limit) ops) s = [] ∧
    (runHub (newStreamHub limit) ops).nextCh ∈
      (bufferFor (hubStep (runHub (newStreamHub limit) ops)
        (hubOp.subscribe s)) s).subs ∧
    ∀ evt : execEvent, evt.sandboxID = s →
      nlistFind (runHub (newStreamHub limit) ops).nextCh
        (hubStep (hubStep (runHub (newStreamHub limit) ops) (hubOp.subscribe s))
          (hubOp.publish evt)).chans =
      some { queue := [{ evt with
                seq := (runHub (newStreamHub limit) ops).seqCounter + 1 }]
             sent := [{ evt with
                seq := (runHub (newStreamHub limit) ops).seqCounter + 1 }]
             dropped := []
             closed := false } := by
  have hinv1 := hubInv_runHub (newStreamHub limit) ops (hubInv_new limit)
  have hpubs : pubsFor s (runHub (newStreamHub limit) ops).published = [] :=
    pubsFor_runHub_none ops (newStreamHub limit) s hops rfl
  refine ⟨?_, ?_, ?_⟩
  · show (bufferFor (runHub (newStreamHub limit) ops) s).events = []
    rw [hinv1.ring s, hpubs, takeLast_nil]
  · rw [bufferFor_subscribe, if_pos rfl]
    simp
  · intro evt hevt
    have hinv2 := hubInv_step _ (hubOp.subscribe s) hinv1
    have hchans3 : (hubStep (hubStep (runHub (newStreamHub limit) ops)
        (hubOp.subscribe s)) (hubOp.publish evt)).chans
        = deliverAll
          (bufferFor (hubStep (runHub (newStreamHub limit) ops)
            (hubOp.subscribe s)) evt.sandboxID).subs
          (hubStep (runHub (newStreamHub limit) ops) (hubOp.subscribe s)).chans
          { evt with seq := (runHub (newStreamHub limit) ops).seqCounter + 1 } :=
      rfl
    rw [hchans3, hevt]
    have hnd : (bufferFor (hubStep (runHub (newStreamHub limit) ops)
        (hubOp.subscribe s)) s).subs.Nodup := hinv2.subsNodup s
    have hch : (runHub (newStreamHub limit) ops).nextCh ∈
        (bufferFor (hubStep (runHub (newStreamHub limit) ops)
          (hubOp.subscribe s)) s).subs := by
      rw [bufferFor_subscribe, if_pos rfl]
      simp
    rw [deliverAll_find_mem _ _ _ _ hnd hch]
    have hfresh : nlistFind (runHub (newStreamHub limit) ops).nextCh
        (hubStep (runHub (newStreamHub limit) ops) (hubOp.subscribe s)).chans
        = some newChan := by
      have hkeys : ∀ p ∈ (runHub (newStreamHub limit) ops).chans,
          p.1 ≠ (runHub (newStreamHub limit) ops).nextCh := by
        intro p hp
        have := hinv1.chanKeys p hp
        omega
      exact nlistFind_append_fresh _ _ _ hkeys
    rw [hfresh]
    simp [sendStep, newChan]

theorem subscribe_fresh_sandbox_witness :
    subscribeSnapshot (runHub (newStreamHub 0) []) "demo" = [] ∧
    nlistFind (runHub (newStreamHub 0) []).nextCh
      (hubStep (hubStep (runHub (newStreamHub 0) []) (hubOp.subscribe "demo"))
        (hubOp.publish ⟨"demo", "e1", 0, "output", "stdout", "hi", 0, "t0"⟩)).chans =
      some { queue := [{ sandboxID := "demo", execID := "e1"
                         seq := (runHub (newStreamHub 0) []).seqCounter + 1
                         type := "output", stream := "stdout", data := "hi"
                         exitCode := 0, time := "t0" }]
             sent := [{ sandboxID := "demo", execID := "e1"
                        seq := (runHub (newStreamHub 0) []).seqCounter + 1
                        type := "output", stream := "stdout", data := "hi"
                        exitCode := 0, time := "t0" }]
             dropped := []
             closed := false } := by
  have h := subscribe_fresh_sandbox 0 [] "demo" (by intro evt hevt; simp at hevt)
  exact ⟨h.1, h.2.2 ⟨"demo", "e1", 0, "output", "stdout", "hi", 0, "t0"⟩ rfl⟩

theorem sendStep_closed (evt : execEvent) (c : chanState) :
    (sendStep evt c).closed = c.closed := by
  unfold sendStep
  by_cases hcl : c.closed = true
  · simp [hcl]
  · simp only [Bool.not_eq_true] at hcl
    by_cases hq : c.queue.length < 128 <;> simp [hcl, hq]

theorem sendStep_sent_sub (evt : execEvent) (c : chanState) :
    ∀ e2 ∈ c.sent, e2 ∈ (sendStep evt c).sent := by
  intro e2 he2
  unfold sendStep
  by_cases hcl : c.closed = true
  · simpa [hcl] using he2
  · simp only [Bool.not_eq_true] at hcl
    by_cases hq : c.queue.length < 128 <;> simp [hcl, hq, he2]

theorem sendStep_dropped_sub (evt : execEvent) (c : chanState) :
    ∀ e2 ∈ c.dropped, e2 ∈ (sendStep evt c).dropped := by
  intro e2 he2
  unfold sendStep
  by_cases hcl : c.closed = true
  · simpa [hcl] using he2
  · simp only [Bool.not_eq_true] at hcl
    by_cases hq : c.queue.length < 128 <;> simp [hcl, hq, he2]

theorem sendStep_delivers (evt : execEvent) (c : chanState)
    (hcl : c.closed = false) :
    evt ∈ (sendStep evt c).sent ∨ evt ∈ (sendStep evt c).dropped := by
  unfold sendStep
  by_cases hq : c.queue.length < 128
  · left; simp [hcl, hq]
  · right; simp [hcl, hq]

theorem drop_append_self {α : Type} (a b : List α) :
    (a ++ b).drop a.length = b := by
  rw [List.drop_append_of_le_length (le_refl _)]
  simp

/-- One subscriber's view across a trace: its channel entry survives, stays
open, only grows, and receives (or visibly drops) every event published for
its sandbox. -/
theorem c4Aux (ops : List hubOp) (st : hubState) (s : String) (ch : Nat)
    (c : chanState) (hinv : hubInv st)
    (hmem : ch ∈ (bufferFor st s).subs)
    (hfind : nlistFind ch st.chans = some c)
    (hcl : c.closed = false)
    (hnu : ∀ s2, hubOp.unsubscribe s2 ch ∉ ops) :
    ∃ c1, nlistFind ch (runHub st ops).chans = some c1 ∧ c1.closed = false ∧
      (∀ e2 ∈ c.sent, e2 ∈ c1.sent) ∧ (∀ e2 ∈ c.dropped, e2 ∈ c1.dropped) ∧
      ∀ evt ∈ pubsFor s ((runHub st ops).published.drop st.published.length),
        evt ∈ c1.sent ∨ evt ∈ c1.dropped := by
  induction ops generalizing st c with
  | nil =>
    refine ⟨c, hfind, hcl, fun e2 h2 => h2, fun e2 h2 => h2, ?_⟩
    intro evt hevt
    rw [show runHub st [] = st from rfl, List.drop_length] at hevt
    simp [pubsFor] at hevt
  | cons op rest ih =>
    have hnu2 : ∀ s2, hubOp.unsubscribe s2 ch ∉ rest :=
      fun s2 hmem2 => hnu s2 (by simp [hmem2])
    have hinv2 := hubInv_step st op hinv
    cases op with
    | publish evt0 =>
      by_cases hchs : ch ∈ (bufferFor st
          ({ evt0 with seq := st.seqCounter + 1 } : execEvent).sandboxID).subs
      · -- the event is delivered (sent or dropped) to our channel
        have hfind2 : nlistFind ch (hubStep st (hubOp.publish evt0)).chans
            = some (sendStep { evt0 with seq := st.seqCounter + 1 } c) := by
          rw [show (hubStep st (hubOp.publish evt0)).chans = deliverAll
              (bufferFor st ({ evt0 with seq := st.seqCounter + 1 } : execEvent).sandboxID).subs
              st.chans { evt0 with seq := st.seqCounter + 1 } from rfl,
            deliverAll_find_mem _ _ _ _ (hinv.subsNodup _) hchs, hfind]
          rfl
        have hmem2 : ch ∈ (bufferFor (hubStep st (hubOp.publish evt0)) s).subs := by
          rw [bufferFor_publish]
          by_cases hs : evt0.sandboxID = s
          · simpa [hs] using hmem
          · simpa [hs] using hmem
        obtain ⟨c1, h1, h2, h3, h4, h5⟩ := ih (hubStep st (hubOp.publish evt0))
          (sendStep { evt0 with seq := st.seqCounter + 1 } c) hinv2 hmem2 hfind2
          (by rw [sendStep_closed]; exact hcl) hnu2
        refine ⟨c1, h1, h2,
          fun e2 he2 => h3 e2 (sendStep_sent_sub _ _ e2 he2),
          fun e2 he2 => h4 e2 (sendStep_dropped_sub _ _ e2 he2), ?_⟩
        intro evt hevt
        obtain ⟨tail, htail⟩ :=
          runHub_published_prefix (hubStep st (hubOp.publish evt0)) rest
        rw [show runHub st (hubOp.publish evt0 :: rest)
            = runHub (hubStep st (hubOp.publish evt0)) rest from rfl] at hevt
        rw [htail, show (hubStep st (hubOp.publish evt0)).published
            = st.published ++ [{ evt0 with seq := st.seqCounter + 1 }] from rfl,
          List.append_assoc, drop_append_self, pubsFor_append] at hevt
        rcases List.mem_append.mp hevt with hm | hm
        · rw [pubsFor_single] at hm
          by_cases hs : ({ evt0 with seq := st.seqCounter + 1 } : execEvent).sandboxID = s
          · rw [if_pos hs] at hm
            simp only [List.mem_singleton] at hm
            subst hm
            rcases sendStep_delivers { evt0 with seq := st.seqCounter + 1 } c hcl
              with hd | hd
            · exact Or.inl (h3 _ hd)
            · exact Or.inr (h4 _ hd)
          · rw [if_neg hs] at hm
            simp at hm
        · refine h5 evt ?_
          rw [htail, show (hubStep st (hubOp.publish evt0)).published
              = st.published ++ [{ evt0 with seq := st.seqCounter + 1 }] from rfl,
            drop_append_self]
          exact hm
      · -- our channel does not belong to the published sandbox's buffer
        have hfind2 : nlistFind ch (hubStep st (hubOp.publish evt0)).chans
            = some c := by
          rw [show (hubStep st (hubOp.publish evt0)).chans = deliverAll
              (bufferFor st ({ evt0 with seq := st.seqCounter + 1 } : execEvent).sandboxID).subs
              st.chans { evt0 with seq := st.seqCounter + 1 } from rfl,
            deliverAll_find_notmem _ _ _ _ hchs, hfind]
        have hsne : ({ evt0 with seq := st.seqCounter + 1 } : execEvent).sandboxID ≠ s := by
          intro hs
          rw [hs] at hchs
          exact hchs hmem
        have hmem2 : ch ∈ (bufferFor (hubStep st (hubOp.publish evt0)) s).subs := by
          rw [bufferFor_publish]
          by_cases hs : evt0.sandboxID = s
          · simpa [hs] using hmem
          · simpa [hs] using hmem
        obtain ⟨c1, h1, h2, h3, h4, h5⟩ := ih (hubStep st (hubOp.publish evt0)) c
          hinv2 hmem2 hfind2 hcl hnu2
        refine ⟨c1, h1, h2, h3, h4, ?_⟩
        intro evt hevt
        obtain ⟨tail, htail⟩ :=
          runHub_published_prefix (hubStep st (hubOp.publish evt0)) rest
        rw [show runHub st (hubOp.publish evt0 :: rest)
            = runHub (hubStep st (hubOp.publish evt0)) rest from rfl] at hevt
        rw [htail, show (hubStep st (hubOp.publish evt0)).published
            = st.published ++ [{ evt0 with seq := st.seqCounter + 1 }] from rfl,
          List.append_assoc, drop_append_self, pubsFor_append] at hevt
        rcases List.mem_append.mp hevt with hm | hm
        · rw [pubsFor_single, if_neg hsne] at hm
          simp at hm
        · refine h5 evt ?_
          rw [htail, show (hubStep st (hubOp.publish evt0)).published
              = st.published ++ [{ evt0 with seq := st.seqCounter + 1 }] from rfl,
            drop_append_self]
          exact hm
    | subscribe s0 =>
      have hfind2 : nlistFind ch (hubStep st (hubOp.subscribe s0)).chans
          = some c := by
        rw [show (hubStep st (hubOp.subscribe s0)).chans
            = st.chans ++ [(st.nextCh, newChan)] from rfl,
          nlistFind_append_left ch _ _ (by rw [hfind]; rfl)]
        exact hfind
      have hmem2 : ch ∈ (bufferFor (hubStep st (hubOp.subscribe s0)) s).subs := by
        rw [bufferFor_subscribe]
        by_cases hs : s0 = s
        · simp only [if_pos hs]
          exact List.mem_append_left _ hmem
        · simpa [hs] using hmem
      exact ih (hubStep st (hubOp.subscribe s0)) c hinv2 hmem2 hfind2 hcl hnu2
    | recv ch2 =>
      by_cases hc : ch = ch2
      · subst hc
        have hfind2 : nlistFind ch (hubStep st (hubOp.recv ch)).chans
            = some { c with queue := c.queue.drop 1 } := by
          rw [show (hubStep st (hubOp.recv ch)).chans
              = nlistModify ch (fun c => { c with queue := c.queue.drop 1 }) st.chans
              from rfl, nlistFind_modify_self, hfind]
          rfl
        exact ih (hubStep st (hubOp.recv ch)) { c with queue := c.queue.drop 1 }
          hinv2 hmem hfind2 hcl hnu2
      · have hfind2 : nlistFind ch (hubStep st (hubOp.recv ch2)).chans
            = some c := by
          rw [show (hubStep st (hubOp.recv ch2)).chans
              = nlistModify ch2 (fun c => { c with queue := c.queue.drop 1 }) st.chans
              from rfl, nlistFind_modify_ne ch ch2 _ _ hc]
          exact hfind
        exact ih (hubStep st (hubOp.recv ch2)) c hinv2 hmem hfind2 hcl hnu2
    | unsubscribe s0 ch2 =>
      have hc : ch ≠ ch2 := by
        intro hc
        subst hc
        exact hnu s0 (by simp)
      have hfind2 : nlistFind ch (hubStep st (hubOp.unsubscribe s0 ch2)).chans
          = some c := by
        rw [show (hubStep st (hubOp.unsubscribe s0 ch2)).chans
            = nlistModify ch2 (fun c => { c with closed := true }) st.chans
            from rfl, nlistFind_modify_ne ch ch2 _ _ hc]
        exact hfind
      have hmem2 : ch ∈ (bufferFor (hubStep st (hubOp.unsubscribe s0 ch2)) s).subs := by
        rw [bufferFor_unsubscribe]
        by_cases hs : s0 = s
        · simp only [if_pos hs]
          exact (List.mem_erase_of_ne hc).mpr hmem
        · simpa [hs] using hmem
      exact ih (hubStep st (hubOp.unsubscribe s0 ch2)) c hinv2 hmem2 hfind2 hcl hnu2

/-- Claim C4: `subscribe` atomically returns the current ring contents as
the snapshot and registers the subscriber; afterwards every event published
for that sandbox is either sent to the subscriber's channel or dropped
because the channel was full (the channel's successfully sent stream keeps
strictly increasing seq values, so drops are detectable as seq gaps). -/
theorem subscribe_snapshot_live (limit : Int) (pre post : List hubOp)
    (s : String)
    (hnu : ∀ s2, hubOp.unsubscribe s2
      (runHub (newStreamHub limit) pre).nextCh ∉ post) :
    subscribeSnapshot (runHub (newStreamHub limit) pre) s
      = takeLast (if limit ≤ 0 then (200 : Int) else limit).toNat
          (pubsFor s (runHub (newStreamHub limit) pre).published) ∧
    (runHub (newStreamHub limit) pre).nextCh ∈
      (bufferFor (hubStep (runHub (newStreamHub limit) pre)
        (hubOp.subscribe s)) s).subs ∧
    ∃ c1, nlistFind (runHub (newStreamHub limit) pre).nextCh
        (runHub (hubStep (runHub (newStreamHub limit) pre)
          (hubOp.subscribe s)) post).chans = some c1 ∧
      List.Pairwise (· < ·) (c1.sent.map execEvent.seq) ∧
      ∀ evt ∈ pubsFor s
        ((runHub (hubStep (runHub (newStreamHub limit) pre)
            (hubOp.subscribe s)) post).published.drop
          (runHub (newStreamHub limit) pre).published.length),
        evt ∈ c1.sent ∨ evt ∈ c1.dropped := by
  have hinv1 := hubInv_runHub (newStreamHub limit) pre (hubInv_new limit)
  have hlim : (runHub (newStreamHub limit) pre).limit
      = (if limit ≤ 0 then (200 : Int) else limit).toNat := by
    rw [runHub_limit]
    rfl
  refine ⟨by rw [show subscribeSnapshot (runHub (newStreamHub limit) pre) s
      = (bufferFor (runHub (newStreamHub limit) pre) s).events from rfl,
      hinv1.ring s, hlim], ?_, ?_⟩
  · rw [bufferFor_subscribe, if_pos rfl]
    simp
  · have hinv2 := hubInv_step _ (hubOp.subscribe s) hinv1
    have hmem : (runHub (newStreamHub limit) pre).nextCh ∈
        (bufferFor (hubStep (runHub (newStreamHub limit) pre)
          (hubOp.subscribe s)) s).subs := by
      rw [bufferFor_subscribe, if_pos rfl]
      simp
    have hfind : nlistFind (runHub (newStreamHub limit) pre).nextCh
        (hubStep (runHub (newStreamHub limit) pre)
          (hubOp.subscribe s)).chans = some newChan := by
      have hkeys : ∀ p ∈ (runHub (newStreamHub limit) pre).chans,
          p.1 ≠ (runHub (newStreamHub limit) pre).nextCh := by
        intro p hp
        have := hinv1.chanKeys p hp
        omega
      exact nlistFind_append_fresh _ _ _ hkeys
    obtain ⟨c1, h1, h2, h3, h4, h5⟩ := c4Aux post
      (hubStep (runHub (newStreamHub limit) pre) (hubOp.subscribe s)) s
      (runHub (newStreamHub limit) pre).nextCh newChan hinv2 hmem hfind rfl hnu
    have hinv3 := hubInv_runHub _ post hinv2
    exact ⟨c1, h1, (hinv3.sentSeq _ c1 h1).1, h5⟩

theorem subscribe_snapshot_live_witness :
    subscribeSnapshot (runHub (newStreamHub 1) []) "demo"
      = takeLast (if (1 : Int) ≤ 0 then (200 : Int) else 1).toNat
          (pubsFor "demo" (runHub (newStreamHub 1) []).published) ∧
    (runHub (newStreamHub 1) []).nextCh ∈
      (bufferFor (hubStep (runHub (newStreamHub 1) [])
        (hubOp.subscribe "demo")) "demo").subs ∧
    ∃ c1, nlistFind (runHub (newStreamHub 1) []).nextCh
        (runHub (hubStep (runHub (newStreamHub 1) [])
          (hubOp.subscribe "demo"))
          [hubOp.publish ⟨"demo", "e1", 0, "start", "", "", 0, "t0"⟩]).chans
        = some c1 ∧
      List.Pairwise (· < ·) (c1.sent.map execEvent.seq) ∧
      ∀ evt ∈ pubsFor "demo"
        ((runHub (hubStep (runHub (newStreamHub 1) [])
            (hubOp.subscribe "demo"))
            [hubOp.publish ⟨"demo", "e1", 0, "start", "", "", 0, "t0"⟩]).published.drop
          (runHub (newStreamHub 1) []).published.length),
        evt ∈ c1.sent ∨ evt ∈ c1.dropped :=
  subscribe_snapshot_live 1 []
    [hubOp.publish ⟨"demo", "e1", 0, "start", "", "", 0, "t0"⟩] "demo"
    (by intro s2 hmem; simp at hmem)

/-! ### Exec registry (`exec_registry.go`) -/

def execStatusRunning : String := "running"

def execStatusCanceling : String := "canceling"

def execStatusCompleted : String := "completed"

def execStatusFailed : String := "failed"

def execStatusCanceled : String := "canceled"

def execStatusTimedOut : String := "timed_out"

/-- The Go error values `finish` can distinguish: `context.DeadlineExceeded`
(via `errors.Is`), `context.Canceled` (via `errors.Is`), a typed
`utilsexec.CodeExitError` (via `errors.As`), or any other error.  The
variants are disjoint in the source: the context sentinel errors carry no
exit code and `CodeExitError` does not unwrap to a context error. -/
inductive goErr where
  | deadlineExceeded
  | canceledErr
  | codeExit (code : Int) (msg : String)
  | otherErr (msg : String)
  deriving DecidableEq

/-- `err.Error()` for the modelled error values. -/
def errMessage : goErr → String
  | .deadlineExceeded => "context deadline exceeded"
  | .canceledErr => "context canceled"
  | .codeExit _ msg => msg
  | .otherErr msg => msg

/-- `exitCodeFromErr`: a typed exit code is only extracted from a
`CodeExitError`; `nil` and everything else yield no code. -/
def exitCodeFromErr : Option goErr → Option Int
  | none => none
  | some (.codeExit code _) => some code
  | some _ => none

/-- One `execRecord` of the registry.  `hasCancel` stands for the presence
of the stored `context.CancelFunc`; times are abstract integers. -/
structure execRecord where
  sandboxID : String
  execID : String
  status : String
  timeoutSeconds : Option Int
  startedAt : Int
  finishedAt : Option Int
  exitCode : Option Int
  errMsg : String
  hasCancel : Bool
  cancelRequested : Bool
  deriving DecidableEq

/-- `isTerminalExecStatus`. -/
def isTerminalExecStatus (status : String) : Bool :=
  status = execStatusCompleted || status = execStatusFailed ||
    status = execStatusCanceled || status = execStatusTimedOut

/-- The body of `finish` applied to the record it found: set `finished_at`,
drop the cancel handle, then classify `err` in source order. -/
def finishRecord (rec : execRecord) (now : Int) (err : Option goErr) :
    execRecord :=
  let rec1 := { rec with finishedAt := some now, hasCancel := false }
  match err with
  | none =>
    { rec1 with status := execStatusCompleted, exitCode := some 0, errMsg := "" }
  | some e =>
    if e = .deadlineExceeded then
      { rec1 with status := execStatusTimedOut, exitCode := some 124
                  errMsg := errMessage e }
    else if e = .canceledErr ∧ rec1.cancelRequested then
      { rec1 with status := execStatusCanceled, errMsg := "" }
    else
      match exitCodeFromErr (some e) with
      | some code =>
        let rec2 := { rec1 with exitCode := some code }
        if rec2.cancelRequested then
          { rec2 with status := execStatusCanceled, errMsg := "" }
        else if code = 0 then
          { rec2 with status := execStatusCompleted, errMsg := "" }
        else
          { rec2 with status := execStatusFailed, errMsg := errMessage e }
      | none => { rec1 with status := execStatusFailed, errMsg := errMessage e }

/-- The two-level registry map `bySandbox`. -/
def getLocked (reg : List (String × List (String × execRecord)))
    (sandboxID execID : String) : Option execRecord :=
  match alistFind sandboxID reg with
  | none => none
  | some byExec => alistFind execID byExec

/-- `finish` on the registry: look the record up under the lock and
finalize it in place; a missing record is a no-op. -/
def finish (reg : List (String × List (String × execRecord)))
    (sandboxID execID : String) (now : Int) (err : Option goErr) :
    List (String × List (String × execRecord)) :=
  match alistFind sandboxID reg with
  | none => reg
  | some byExec =>
    match alistFind execID byExec with
    | none => reg
    | some rec =>
      alistPut sandboxID
        (alistPut execID (finishRecord rec now err) byExec) reg

theorem getLocked_finish (reg : List (String × List (String × execRecord)))
    (sandboxID execID : String) (now : Int) (err : Option goErr)
    (rec : execRecord) (hfound : getLocked reg sandboxID execID = some rec) :
    getLocked (finish reg sandboxID execID now err) sandboxID execID
      = some (finishRecord rec now err) := by
  unfold getLocked at hfound
  unfold finish getLocked
  cases hsb : alistFind sandboxID reg with
  | none => simp [hsb] at hfound
  | some byExec =>
    simp only [hsb] at hfound ⊢
    cases hex : alistFind execID byExec with
    | none => simp [hex] at hfound
    | some rec2 =>
      simp only [hex] at hfound ⊢
      injection hfound with hr
      subst hr
      rw [alistFind_put_self]
      simp only [alistFind_put_self]

/-- Claim C2: for every existing exec record, `finish` sets `finished_at`
and classifies exactly as specified: nil gives completed/0; deadline gives
timed_out/124; cancellation with `cancel_requested` gives canceled with no
exit code and no error message; a typed exit code gives canceled with the
code when `cancel_requested`, completed when the code is 0, and otherwise
failed with code and message; any other error gives failed with no exit
code and the message preserved. -/
theorem finish_classification
    (reg : List (String × List (String × execRecord)))
    (sandboxID execID : String) (now : Int) (err : Option goErr)
    (rec : execRecord)
    (hfound : getLocked reg sandboxID execID = some rec)
    (hexit : rec.exitCode = none) :
    getLocked (finish reg sandboxID execID now err) sandboxID execID
      = some (finishRecord rec now err) ∧
    (finishRecord rec now err).finishedAt = some now ∧
    (err = none →
      (finishRecord rec now err).status = execStatusCompleted ∧
      (finishRecord rec now err).exitCode = some 0) ∧
    (err = some .deadlineExceeded →
      (finishRecord rec now err).status = execStatusTimedOut ∧
      (finishRecord rec now err).exitCode = some 124) ∧
    (err = some .canceledErr → rec.cancelRequested = true →
      (finishRecord rec now err).status = execStatusCanceled ∧
      (finishRecord rec now err).exitCode = none ∧
      (finishRecord rec now err).errMsg = "") ∧
    (∀ code msg, err = some (.codeExit code msg) →
      rec.cancelRequested = true →
      (finishRecord rec now err).status = execStatusCanceled ∧
      (finishRecord rec now err).exitCode = some code) ∧
    (∀ code msg, err = some (.codeExit code msg) →
      rec.cancelRequested = false → code = 0 →
      (finishRecord rec now err).status = execStatusCompleted ∧
      (finishRecord rec now err).exitCode = some 0) ∧
    (∀ code msg, err = some (.codeExit code msg) →
      rec.cancelRequested = false → code ≠ 0 →
      (finishRecord rec now err).status = execStatusFailed ∧
      (finishRecord rec now err).exitCode = some code ∧
      (finishRecord rec now err).errMsg = msg) ∧
    (err = some .canceledErr → rec.cancelRequested = false →
      (finishRecord rec now err).status = execStatusFailed ∧
      (finishRecord rec now err).exitCode = none ∧
      (finishRecord rec now err).errMsg = errMessage .canceledErr) ∧
    (∀ msg, err = some (.otherErr msg) →
      (finishRecord rec now err).status = execStatusFailed ∧
      (finishRecord rec now err).exitCode = none ∧
      (finishRecord rec now err).errMsg = msg) := by
  refine ⟨getLocked_finish reg sandboxID execID now err rec hfound, ?_, ?_,
    ?_, ?_, ?_, ?_, ?_, ?_, ?_⟩
  · cases err with
    | none => simp [finishRecord]
    | some e =>
      cases e <;>
        simp only [finishRecord, exitCodeFromErr, errMessage] <;>
        split_ifs <;> rfl
  · intro he
    subst he
    simp [finishRecord, execStatusCompleted]
  · intro he
    subst he
    simp [finishRecord, execStatusTimedOut]
  · intro he hcr
    subst he
    simp [finishRecord, execStatusCanceled, hcr, hexit]
  · intro code msg he hcr
    subst he
    simp [finishRecord, execStatusCanceled, exitCodeFromErr, hcr]
  · intro code msg he hcr hc0
    subst he
    subst hc0
    simp [finishRecord, execStatusCompleted, exitCodeFromErr, hcr]
  · intro code msg he hcr hcnz
    subst he
    simp [finishRecord, execStatusFailed, exitCodeFromErr, errMessage, hcr, hcnz]
  · intro he hcr
    subst he
    simp [finishRecord, execStatusFailed, exitCodeFromErr, errMessage, hcr, hexit]
  · intro msg he
    subst he
    simp [finishRecord, execStatusFailed, exitCodeFromErr, errMessage, hexit]

theorem finish_classification_witness :
    getLocked
        (finish [("sb", [("ex", ⟨"sb", "ex", execStatusRunning, none, 0,
            none, none, "", true, false⟩)])] "sb" "ex" 7
          (some (.codeExit 3 "boom"))) "sb" "ex"
      = some (finishRecord ⟨"sb", "ex", execStatusRunning, none, 0,
          none, none, "", true, false⟩ 7 (some (.codeExit 3 "boom"))) ∧
    (finishRecord (⟨"sb", "ex", execStatusRunning, none, 0,
        none, none, "", true, false⟩ : execRecord) 7
        (some (.codeExit 3 "boom"))).status = execStatusFailed ∧
    (finishRecord (⟨"sb", "ex", execStatusRunning, none, 0,
        none, none, "", true, false⟩ : execRecord) 7
        (some (.codeExit 3 "boom"))).exitCode = some 3 ∧
    (finishRecord (⟨"sb", "ex", execStatusRunning, none, 0,
        none, none, "", true, false⟩ : execRecord) 7
        (some (.codeExit 3 "boom"))).errMsg = "boom" := by
  have h := finish_classification
    [("sb", [("ex", ⟨"sb", "ex", execStatusRunning, none, 0,
        none, none, "", true, false⟩)])] "sb" "ex" 7
    (some (.codeExit 3 "boom"))
    ⟨"sb", "ex", execStatusRunning, none, 0, none, none, "", true, false⟩
    (by rfl) (by rfl)
  obtain ⟨h1, _, _, _, _, _, _, h8, _, _⟩ := h
  obtain ⟨ha, hb, hc⟩ := h8 3 "boom" rfl rfl (by decide)
  exact ⟨h1, ha, hb, hc⟩

/-! ### Shell quoting and sidecar command wrapping (`main.go`) -/

/-- The character class checked by `shellQuote` via `strings.IndexFunc`. -/
def isShellSpecial (c : Char) : Bool :=
  c = squoteChar || c = dquoteChar || c = '\\' || c = '$' ||
    c = backtickChar || c = ' ' || c = '\t' || c = '\n'

/-- The single-quote escape sequence used by `shellQuote`. -/
def squoteEscapeSeq : List Char :=
  [squoteChar, dquoteChar, squoteChar, dquoteChar, squoteChar]

/-- `shellQuote`: empty becomes two quotes, safe strings stay bare, and
anything containing a special character is single-quoted with every
embedded quote escaped. -/
def shellQuote (arg : String) : String :=
  if arg = "" then String.mk [squoteChar, squoteChar]
  else if arg.toList.any isShellSpecial then
    String.mk ([squoteChar] ++
      arg.toList.flatMap
        (fun c => if c = squoteChar then squoteEscapeSeq else [c]) ++
      [squoteChar])
  else arg

/-- `shellJoin`. -/
def shellJoin (args : List String) : String :=
  match args with
  | [] => ""
  | _ => String.intercalate " " (args.map shellQuote)

/-- `wrapCommandForSidecar`: the `fmt.Sprintf` template instantiated with
the shell-quoted events directory (defaulted to `/sbx-events`), the exec
id, and the joined user argv. -/
def wrapCommandForSidecar (execID : String) (cmd : List String)
    (eventsDir : String) : List String :=
  let escaped := shellJoin cmd
  let dir := if eventsDir = "" then "/sbx-events" else eventsDir
  let q := shellQuote dir
  ["bash", "-lc",
    "mkdir -p " ++ q ++ "; out=" ++ q ++ "/" ++ execID ++
      ".stdout; err=" ++ q ++ "/" ++ execID ++ ".stderr; (" ++ escaped ++
      ") >$out 2>$err; code=$?; echo $code > " ++ q ++ "/" ++ execID ++
      ".exit; exit $code"]

/-- The script template exactly as the specification spells it, with the
placeholders D (shell-quoted events dir), id (exec id) and Q (joined
argv). -/
def sidecarScriptSpec (d execID q : String) : String :=
  "mkdir -p " ++ d ++ "; out=" ++ d ++ "/" ++ execID ++
    ".stdout; err=" ++ d ++ "/" ++ execID ++ ".stderr; (" ++ q ++
    ") >$out 2>$err; code=$?; echo $code > " ++ d ++ "/" ++ execID ++
    ".exit; exit $code"

/-- Claim C7: the wrapped argv is exactly `[bash, -lc, script]` with the
script equal to the specified template instantiated with the shell-quoted
events directory and the argv joined with single-quote-escaped quoting; an
empty argument renders as two quotes, and an argument containing a single
quote is quoted with every quote escaped. -/
theorem wrapCommandForSidecar_format (execID : String) (cmd : List String)
    (eventsDir : String) :
    wrapCommandForSidecar execID cmd eventsDir
      = ["bash", "-lc", sidecarScriptSpec
          (shellQuote (if eventsDir = "" then "/sbx-events" else eventsDir))
          execID (shellJoin cmd)] ∧
    shellQuote "" = String.mk [squoteChar, squoteChar] ∧
    (∀ arg : String, squoteChar ∈ arg.toList →
      shellQuote arg = String.mk ([squoteChar] ++
        arg.toList.flatMap
          (fun c => if c = squoteChar then squoteEscapeSeq else [c]) ++
        [squoteChar])) := by
  refine ⟨rfl, by simp [shellQuote], ?_⟩
  intro arg hq
  have hne : arg ≠ "" := by
    intro h
    subst h
    simp at hq
  have hany : arg.toList.any isShellSpecial = true := by
    refine List.any_eq_true.mpr ⟨squoteChar, hq, ?_⟩
    decide
  unfold shellQuote
  rw [if_neg hne, if_pos hany]

theorem wrapCommandForSidecar_format_witness :
    wrapCommandForSidecar "0011223344556677"
        ["echo", String.mk ['a', squoteChar, 'b']] "/sbx-events"
      = ["bash", "-lc", sidecarScriptSpec (shellQuote "/sbx-events")
          "0011223344556677"
          (shellJoin ["echo", String.mk ['a', squoteChar, 'b']])] ∧
    shellQuote "" = String.mk [squoteChar, squoteChar] ∧
    shellQuote (String.mk ['a', squoteChar, 'b'])
      = String.mk ([squoteChar] ++
          (String.mk ['a', squoteChar, 'b']).toList.flatMap
            (fun c => if c = squoteChar then squoteEscapeSeq else [c]) ++
          [squoteChar]) := by
  have h := wrapCommandForSidecar_format "0011223344556677"
    ["echo", String.mk ['a', squoteChar, 'b']] "/sbx-events"
  exact ⟨h.1, h.2.1, h.2.2 (String.mk ['a', squoteChar, 'b']) (by decide)⟩

/-! ### Async exec dispatch (`execSandbox` / `execCommandStream` in
`main.go`).  The observable side effects of the dispatched goroutine are
modelled as an effect list: a registry insertion, a hub publish, the remote
exec call, or the best-effort `last_exec_at` update. -/

inductive dispatchEffect where
  | registryCreateRunning (sandboxID execID : String)
  | publishToHub (evt : execEvent)
  | remoteExec (ns pod container : String) (cmd : List String)
  | updateLastExec (ns : String)
  deriving DecidableEq

/-- `execCommandStream`: if building the SPDY executor fails, a single
`exit` event with code 1 and the error text is published; otherwise the
remote command runs with stdout/stderr discarded and `last_exec_at` is
updated.  `setupErr` is the executor construction error, `seq` the value
`nextSeq()` would hand out, `ts` the wall clock. -/
def execCommandStream (ns pod container execID : String)
    (cmd : List String) (setupErr : Option String) (seq : Int)
    (ts : String) : List dispatchEffect :=
  match setupErr with
  | some msg =>
    [dispatchEffect.publishToHub
      { sandboxID := ns, execID := execID, seq := seq, type := "exit"
        stream := "stderr", data := msg, exitCode := 1, time := ts }]
  | none =>
    [dispatchEffect.remoteExec ns pod container cmd,
     dispatchEffect.updateLastExec ns]

/-- The async branch of `execSandbox`: wrap the command when a sidecar
image is configured, spawn `execCommandStream`, and answer
`{exec_id, status: running}` immediately. -/
def execSandboxAsync (ns execID : String) (command : List String)
    (sidecarImage eventsDir : String) (setupErr : Option String)
    (seq : Int) (ts : String) : (String × String) × List dispatchEffect :=
  let cmd := if sidecarImage ≠ "" then
      wrapCommandForSidecar execID command eventsDir
    else command
  ((execID, "running"),
   execCommandStream ns "sandbox" "sandbox" execID cmd setupErr seq ts)

def isRegistryCreate : dispatchEffect → Bool
  | .registryCreateRunning _ _ => true
  | _ => false

def isStartPublish : dispatchEffect → Bool
  | .publishToHub evt => evt.type = "start"
  | _ => false

/-- Claim C1 evaluated on the code: the async exec dispatch answers
`running` but performs no exec-registry insertion and publishes no
`{type: start}` event, for every input (the only event it can ever publish
is the setup-failure `exit` event).  This contradicts the claim, which
requires a `running` registry record and a `start` event before any
output. -/
theorem async_exec_no_registry_no_start (ns execID : String)
    (command : List String) (sidecarImage eventsDir : String)
    (setupErr : Option String) (seq : Int) (ts : String) :
    (execSandboxAsync ns execID command sidecarImage eventsDir setupErr
      seq ts).1 = (execID, "running") ∧
    ((execSandboxAsync ns execID command sidecarImage eventsDir setupErr
      seq ts).2.countP isRegistryCreate) = 0 ∧
    ((execSandboxAsync ns execID command sidecarImage eventsDir setupErr
      seq ts).2.countP isStartPublish) = 0 := by
  cases setupErr with
  | none =>
    refine ⟨rfl, ?_, ?_⟩ <;>
      simp [execSandboxAsync, execCommandStream, List.countP_cons,
        isRegistryCreate, isStartPublish]
  | some msg =>
    refine ⟨rfl, ?_, ?_⟩ <;>
      simp [execSandboxAsync, execCommandStream, List.countP_cons,
        isRegistryCreate, isStartPublish]

/-! ### Sandbox creation (`handleSandboxes`, `generateID`, `validID`) -/

/-- One lowercase hex digit (as produced by `hex.EncodeToString`). -/
def hexDigitChar (n : Nat) : Char :=
  if n < 10 then Char.ofNat (48 + n) else Char.ofNat (87 + n)

/-- `hex.EncodeToString` over a byte slice (bytes reduced mod 256). -/
def hexEncode (bs : List Nat) : String :=
  String.mk (bs.flatMap
    (fun b => [hexDigitChar (b % 256 / 16), hexDigitChar (b % 256 % 16)]))

/-- `generateID`: 6 random bytes, hex encoded.  The caller passes the bytes
`rand.Read` produced. -/
def generateID (randomBytes : List Nat) : String := hexEncode randomBytes

def isLowerAlnum (c : Char) : Bool :=
  (97 ≤ c.toNat && c.toNat ≤ 122) || (48 ≤ c.toNat && c.toNat ≤ 57)

def isIDChar (c : Char) : Bool := isLowerAlnum c || c = '-'

/-- The tail of the id regex: zero or more `[-a-z0-9]` ending in
`[a-z0-9]`, or nothing. -/
def validIDTail : List Char → Bool
  | [] => true
  | [c] => isLowerAlnum c
  | c :: rest => isIDChar c && validIDTail rest

/-- `validID`: the regex `^[a-z0-9]([-a-z0-9]*[a-z0-9])?$`. -/
def validID (id : String) : Bool :=
  match id.toList with
  | [] => false
  | c :: rest => isLowerAlnum c && validIDTail rest

/-- `sandboxNamespace`. -/
def sandboxNamespace (id : String) : String := "sbx-" ++ id

/-- A lowercase hex string of length 12 (the claimed response shape). -/
def isHex12 (s : String) : Bool :=
  s.length = 12 && s.toList.all
    (fun c => (48 ≤ c.toNat && c.toNat ≤ 57) || (97 ≤ c.toNat && c.toNat ≤ 102))

structure createOutcome where
  status : Nat
  id : String
  namespaceName : String
  podName : String
  deriving DecidableEq

/-- The id/namespace/response logic of `handleSandboxes`.  External
outcomes are parameters: `warmResult` is what `claimWarmNamespace` would
return when consulted, `orchErr` the first error of the ensure calls
(namespace, PVCs, pod).  The response's `ID` field is set to `ns`
verbatim, exactly as in the source. -/
def handleSandboxes (reqID : String) (randBytes : List Nat)
    (warmEnabled : Bool) (warmResult : String × Bool × Option String)
    (orchErr : Option String) : createOutcome :=
  let id := if reqID = "" then generateID randBytes else reqID
  if ¬ validID id then
    { status := 400, id := "", namespaceName := "", podName := "" }
  else
    let claim := if reqID = "" ∧ warmEnabled then warmResult
      else ("", false, none)
    if claim.2.2 = none ∧ claim.2.1 = true then
      match orchErr with
      | some _ => { status := 500, id := "", namespaceName := "", podName := "" }
      | none =>
        { status := 200, id := claim.1, namespaceName := claim.1
          podName := "sandbox" }
    else if claim.2.2 ≠ none then
      { status := 500, id := "", namespaceName := "", podName := "" }
    else
      match orchErr with
      | some _ => { status := 500, id := "", namespaceName := "", podName := "" }
      | none =>
        { status := 200, id := sandboxNamespace id
          namespaceName := sandboxNamespace id, podName := "sandbox" }

/-- Claim C6 as stated is false: the create response's id is the namespace
`sbx-<token>`, not the bare generated 12-hex token.  At the bytes that
generate `abcdef012345` the response id is `sbx-abcdef012345`, which is not
a 12-lowercase-hex-character token. -/
theorem create_response_id_counterexample :
    (handleSandboxes "" [171, 205, 239, 1, 35, 69] false ("", false, none)
      none).status = 200 ∧
    generateID [171, 205, 239, 1, 35, 69] = "abcdef012345" ∧
    (handleSandboxes "" [171, 205, 239, 1, 35, 69] false ("", false, none)
      none).id = "sbx-abcdef012345" ∧
    isHex12 ((handleSandboxes "" [171, 205, 239, 1, 35, 69] false
      ("", false, none) none).id) = false := by decide

def isHexLowerChar (c : Char) : Bool :=
  (48 ≤ c.toNat && c.toNat ≤ 57) || (97 ≤ c.toNat && c.toNat ≤ 102)

theorem hexDigitChar_hex (n : Nat) (h : n < 16) :
    isHexLowerChar (hexDigitChar n) = true := by
  interval_cases n <;> decide

theorem isLowerAlnum_of_hex (c : Char) (h : isHexLowerChar c = true) :
    isLowerAlnum c = true := by
  simp only [isHexLowerChar, Bool.or_eq_true, Bool.and_eq_true,
    decide_eq_true_eq] at h
  simp only [isLowerAlnum, Bool.or_eq_true, Bool.and_eq_true,
    decide_eq_true_eq]
  omega

theorem hexEncode_length (bs : List Nat) :
    (hexEncode bs).length = 2 * bs.length := by
  unfold hexEncode
  rw [String.length_mk]
  induction bs with
  | nil => rfl
  | cons b rest ih =>
    simp only [List.flatMap_cons, List.length_append, ih, List.length_cons]
    simp
    omega

theorem hexEncode_all_hex (bs : List Nat) :
    ∀ c ∈ (hexEncode bs).toList, isHexLowerChar c = true := by
  show ∀ c ∈ (bs.flatMap
    (fun b => [hexDigitChar (b % 256 / 16), hexDigitChar (b % 256 % 16)])),
    isHexLowerChar c = true
  induction bs with
  | nil => simp
  | cons b rest ih =>
    intro c hc
    rw [List.flatMap_cons] at hc
    rcases List.mem_append.mp hc with hm | hm
    · have hdiv : b % 256 / 16 < 16 := by omega
      have hmod : b % 256 % 16 < 16 := by omega
      rcases List.mem_cons.mp hm with h1 | h1
      · subst h1; exact hexDigitChar_hex _ hdiv
      · simp only [List.mem_singleton] at h1
        subst h1; exact hexDigitChar_hex _ hmod
    · exact ih c hm

theorem validIDTail_of_lowerAlnum (cs : List Char)
    (h : ∀ c ∈ cs, isLowerAlnum c = true) : validIDTail cs = true := by
  induction cs with
  | nil => rfl
  | cons c rest ih =>
    cases rest with
    | nil => simpa [validIDTail] using h c (by simp)
    | cons d t =>
      have hc : isLowerAlnum c = true := h c (by simp)
      have hid : isIDChar c = true := by simp [isIDChar, hc]
      have ht : validIDTail (d :: t) = true :=
        ih (fun x hx => h x (by simp [hx]))
      simp [validIDTail, hid, ht]

theorem validID_of_lowerAlnum (cs : List Char) (hne : cs ≠ [])
    (hall : ∀ c ∈ cs, isLowerAlnum c = true) :
    validID (String.mk cs) = true := by
  unfold validID
  cases cs with
  | nil => exact absurd rfl hne
  | cons c rest =>
    show (isLowerAlnum c && validIDTail rest) = true
    rw [hall c (by simp),
      validIDTail_of_lowerAlnum rest (fun x hx => hall x (by simp [hx]))]
    rfl

/-- Claim C6 amended: a create request without an id (cold path, warm pool
disabled, orchestrator calls succeeding) returns 200 with the response id
equal to the namespace `sbx-<token>` where `<token>` is the generated
12-lowercase-hex-character token. -/
theorem create_response_id_amended (randBytes : List Nat)
    (h6 : randBytes.length = 6) :
    isHex12 (generateID randBytes) = true ∧
    validID (generateID randBytes) = true ∧
    (handleSandboxes "" randBytes false ("", false, none) none).status
      = 200 ∧
    (handleSandboxes "" randBytes false ("", false, none) none).id
      = sandboxNamespace (generateID randBytes) ∧
    (handleSandboxes "" randBytes false ("", false, none) none).namespaceName
      = sandboxNamespace (generateID randBytes) := by
  have hlen : (generateID randBytes).length = 12 := by
    rw [generateID, hexEncode_length, h6]
  have hall := hexEncode_all_hex randBytes
  have hvalid : validID (generateID randBytes) = true := by
    apply validID_of_lowerAlnum
    · intro h
      have : (generateID randBytes).length = 0 := by
        rw [generateID] at *
        unfold hexEncode at *
        rw [String.length_mk]
        have : randBytes.flatMap (fun b =>
          [hexDigitChar (b % 256 / 16), hexDigitChar (b % 256 % 16)]) = [] := h
        simp [this]
      omega
    · intro c hc
      exact isLowerAlnum_of_hex c (hall c hc)
  have hhex : isHex12 (generateID randBytes) = true := by
    simp only [isHex12, hlen, Bool.and_eq_true, List.all_eq_true,
      decide_eq_true_eq]
    refine ⟨trivial, ?_⟩
    intro c hc
    have := hall c hc
    simp only [isHexLowerChar, Bool.or_eq_true, Bool.and_eq_true,
      decide_eq_true_eq] at this
    simp only [Bool.or_eq_true, Bool.and_eq_true, decide_eq_true_eq]
    exact this
  refine ⟨hhex, hvalid, ?_, ?_, ?_⟩ <;>
    simp [handleSandboxes, hvalid]

theorem create_response_id_amended_witness :
    isHex12 (generateID [171, 205, 239, 1, 35, 69]) = true ∧
    validID (generateID [171, 205, 239, 1, 35, 69]) = true ∧
    (handleSandboxes "" [171, 205, 239, 1, 35, 69] false ("", false, none)
      none).status = 200 ∧
    (handleSandboxes "" [171, 205, 239, 1, 35, 69] false ("", false, none)
      none).id = sandboxNamespace (generateID [171, 205, 239, 1, 35, 69]) ∧
    (handleSandboxes "" [171, 205, 239, 1, 35, 69] false ("", false, none)
      none).namespaceName
      = sandboxNamespace (generateID [171, 205, 239, 1, 35, 69]) :=
  create_response_id_amended [171, 205, 239, 1, 35, 69] (by decide)

/-! ### Warm pool claim path (`claimWarmNamespace` in `warm.go`) -/

/-- A namespace object as the warm pool and the reaper see it. -/
structure nsObject where
  name : String
  labels : List (String × String)
  annotations : List (String × String)
  creationTimestamp : Int
  deriving DecidableEq

def labelValue (ns : nsObject) (key : String) : String :=
  match alistFind key ns.labels with
  | some v => v
  | none => ""

def annotationValue (ns : nsObject) (key : String) : String :=
  match alistFind key ns.annotations with
  | some v => v
  | none => ""

/-- The label selector `sbx.pool=warm, sbx.state=ready`. -/
def isWarmReady (ns : nsObject) : Bool :=
  labelValue ns "sbx.pool" = "warm" && labelValue ns "sbx.state" = "ready"

/-- Lexicographic comparison of names (Go string order on ASCII names). -/
def charListLe : List Char → List Char → Bool
  | [], _ => true
  | _ :: _, [] => false
  | c :: crest, d :: drest =>
    if c.toNat < d.toNat then true
    else if d.toNat < c.toNat then false
    else charListLe crest drest

def nameLe (a b : String) : Bool := charListLe a.toList b.toList

/-- Ascending insertion by name (models `sort.Slice` by `Name <`). -/
def insertByName (n : nsObject) : List nsObject → List nsObject
  | [] => [n]
  | m :: rest =>
    if nameLe n.name m.name then n :: m :: rest else m :: insertByName n rest

def sortByName : List nsObject → List nsObject
  | [] => []
  | n :: rest => insertByName n (sortByName rest)

/-- The candidate loop of `claimWarmNamespace`.  `ready` is the outcome of
`isPodReady` for the namespace's `sandbox` pod (`false` also covers an
error from the pod lookup, which the loop skips the same way); `updateErr`
is the orchestrator's answer to the claiming `Update` call.  On an update
error the source returns the error immediately; it does not try the next
candidate. -/
def claimLoop (ready : String → Bool) (updateErr : String → Option String) :
    List nsObject → String × Bool × Option String
  | [] => ("", false, none)
  | c :: rest =>
    if ready c.name then
      match updateErr c.name with
      | some e => ("", false, some e)
      | none => (c.name, true, none)
    else claimLoop ready updateErr rest

/-- `claimWarmNamespace`: list `sbx.pool=warm, sbx.state=ready`, return
not-claimed when empty, sort by name and walk the candidates. -/
def claimWarmNamespace (nss : List nsObject) (ready : String → Bool)
    (updateErr : String → Option String) : String × Bool × Option String :=
  let filtered := nss.filter isWarmReady
  if filtered.isEmpty then ("", false, none)
  else claimLoop ready updateErr (sortByName filtered)

/-- Claim C3 as stated is false: with two ready candidates and a conflict
rejection on the first, `claimWarmNamespace` surfaces the error instead of
claiming the next candidate. -/
theorem warm_claim_conflict_counterexample :
    claimWarmNamespace
      [⟨"sbx-warm-1", [("sbx.pool", "warm"), ("sbx.state", "ready")],
          [("sbx.last_exec_at", "0")], 0⟩,
       ⟨"sbx-warm-2", [("sbx.pool", "warm"), ("sbx.state", "ready")],
          [("sbx.last_exec_at", "0")], 0⟩]
      (fun _ => true)
      (fun n => if n = "sbx-warm-1" then some "conflict" else none)
      = ("", false, some "conflict") ∧
    ("", false, some "conflict") ≠ (("sbx-warm-2", true, none) :
      String × Bool × Option String) := by
  constructor
  · decide
  · decide

theorem claimLoop_first_ready (ready : String → Bool)
    (updateErr : String → Option String) (l : List nsObject) (c : nsObject)
    (hfirst : l.find? (fun n => ready n.name) = some c) :
    claimLoop ready updateErr l =
      (match updateErr c.name with
       | some e => ("", false, some e)
       | none => (c.name, true, none)) := by
  induction l with
  | nil => simp [List.find?] at hfirst
  | cons m rest ih =>
    by_cases hm : ready m.name
    · rw [List.find?_cons_of_pos _ (by simp [hm])] at hfirst
      injection hfirst with hc
      subst hc
      simp [claimLoop, hm]
    · rw [List.find?_cons_of_neg _ (by simp [hm])] at hfirst
      simp only [claimLoop, hm, if_false, ite_false]
      exact ih hfirst

/-- Claim C3 amended: candidates whose readiness check fails (or errors)
are skipped in sorted-name order, but when the claiming update on the
first ready candidate is rejected the error is surfaced to the caller
(`claimed=false` with the error) without trying further candidates; the
update succeeding claims that candidate. -/
theorem warm_claim_first_ready_decides (nss : List nsObject)
    (ready : String → Bool) (updateErr : String → Option String)
    (c : nsObject)
    (hfirst : (sortByName (nss.filter isWarmReady)).find?
      (fun n => ready n.name) = some c) :
    claimWarmNamespace nss ready updateErr =
      (match updateErr c.name with
       | some e => ("", false, some e)
       | none => (c.name, true, none)) := by
  unfold claimWarmNamespace
  have hne : ¬ (nss.filter isWarmReady).isEmpty = true := by
    intro hemp
    rw [List.isEmpty_iff] at hemp
    rw [hemp] at hfirst
    simp [sortByName, List.find?] at hfirst
  simp only [hne, if_false, ite_false]
  exact claimLoop_first_ready ready updateErr _ c hfirst

theorem warm_claim_first_ready_decides_witness :
    claimWarmNamespace
      [⟨"sbx-warm-1", [("sbx.pool", "warm"), ("sbx.state", "ready")],
          [("sbx.last_exec_at", "0")], 0⟩,
       ⟨"sbx-warm-2", [("sbx.pool", "warm"), ("sbx.state", "ready")],
          [("sbx.last_exec_at", "0")], 0⟩]
      (fun _ => true)
      (fun n => if n = "sbx-warm-1" then some "conflict" else none)
      = ("", false, some "conflict") := by
  have h := warm_claim_first_ready_decides
    [⟨"sbx-warm-1", [("sbx.pool", "warm"), ("sbx.state", "ready")],
        [("sbx.last_exec_at", "0")], 0⟩,
     ⟨"sbx-warm-2", [("sbx.pool", "warm"), ("sbx.state", "ready")],
        [("sbx.last_exec_at", "0")], 0⟩]
    (fun _ => true)
    (fun n => if n = "sbx-warm-1" then some "conflict" else none)
    ⟨"sbx-warm-1", [("sbx.pool", "warm"), ("sbx.state", "ready")],
        [("sbx.last_exec_at", "0")], 0⟩
    (by decide)
  rw [h]
  decide

/-! ### Sandbox idle reaper (`reapOnce` in `reaper.go`) -/

/-- Decimal digit run parser (the digits part of `strconv.ParseInt`). -/
def parseDecDigits (cs : List Char) : Option Nat :=
  match cs with
  | [] => none
  | _ =>
    if cs.all (fun c => 48 ≤ c.toNat && c.toNat ≤ 57) then
      some (cs.foldl (fun acc c => acc * 10 + (c.toNat - 48)) 0)
    else none

/-- `strconv.ParseInt(s, 10, 64)`: optional sign then decimal digits.
The 64-bit range check is omitted; annotation timestamps stay far below
it. -/
def goParseInt (s : String) : Option Int :=
  match s.toList with
  | [] => none
  | c :: rest =>
    if c = '+' then (parseDecDigits rest).map (fun n => (n : Int))
    else if c = '-' then (parseDecDigits rest).map (fun n => -(n : Int))
    else (parseDecDigits (c :: rest)).map (fun n => (n : Int))

/-- One pass of the sandbox idle reaper.  Returns the namespaces it
deletes; deleting is the only cluster mutation `reapOnce` performs, so an
empty result means the pass left every namespace unchanged.  Times are
Unix seconds; `ttl` is the configured `SANDBOX_IDLE_TTL`. -/
def reapOnce (ttl : Int) (nss : List nsObject) (now : Int) : List String :=
  if ttl ≤ 0 then []
  else
    nss.filterMap (fun ns =>
      if ¬ ns.name.startsWith "sbx-" then none
      else if labelValue ns "sbx.allocated" = "false" then none
      else
        let last := annotationValue ns "sbx.last_exec_at"
        let lastTime :=
          if last ≠ "" ∧ last ≠ "0" then
            match goParseInt last with
            | some ts => ts
            | none => ns.creationTimestamp
          else ns.creationTimestamp
        if ttl < now - lastTime then some ns.name else none)

/-- Claim C10: with a zero or negative idle TTL a reaper pass deletes
nothing (reaping is disabled), regardless of how idle the namespaces
are. -/
theorem reapOnce_nonpositive_ttl (ttl : Int) (nss : List nsObject)
    (now : Int) (h : ttl ≤ 0) : reapOnce ttl nss now = [] := by
  unfold reapOnce
  rw [if_pos h]

theorem reapOnce_nonpositive_ttl_witness :
    reapOnce 0
      [⟨"sbx-demo", [], [("sbx.last_exec_at", "5")], 1⟩] 1000000 = [] :=
  reapOnce_nonpositive_ttl 0
    [⟨"sbx-demo", [], [("sbx.last_exec_at", "5")], 1⟩] 1000000 (by decide)

/-! ### Sidecar forwarder (`sidecar/cmd/streamer/main.go`).

The events directory is modelled as a snapshot per pump pass: a list of
`(execID, kind, content)` for the files present (`parseEventFile` names).
`pump` runs over such a snapshot with the pass's wall clock `now`
(milliseconds) and formatted timestamp `ts`; sends are modelled as
succeeding (a failed send aborts the pass before the corresponding state
flag is set, so the invariants below are unaffected). -/

inductive fileKind where
  | stdoutFile
  | stderrFile
  | exitFile
  deriving DecidableEq

/-- Event as sent by the forwarder (no seq; the ingest side assigns it). -/
structure streamerEvent where
  sandboxID : String
  execID : String
  type : String
  stream : String
  data : String
  exitCode : Int
  time : String
  deriving DecidableEq

/-- Per-exec forwarder state (`execState`); `exitReadyAt = none` models
the zero `time.Time`. -/
structure execState where
  stdoutOff : Nat
  stderrOff : Nat
  exitSent : Bool
  startSent : Bool
  exitCode : Int
  exitSeen : Bool
  lastActivity : Int
  exitReadyAt : Option Int
  deriving DecidableEq

def newExecState : execState :=
  { stdoutOff := 0, stderrOff := 0, exitSent := false, startSent := false
    exitCode := 0, exitSeen := false, lastActivity := 0, exitReadyAt := none }

/-- Find a file's content in the directory snapshot. -/
def dirFind (dir : List (String × fileKind × String)) (e : String)
    (k : fileKind) : Option String :=
  match dir with
  | [] => none
  | (e2, k2, content) :: rest =>
    if e2 = e ∧ k2 = k then some content else dirFind rest e k

/-- `fileSize` (a missing file counts as size 0). -/
def fileSize (dir : List (String × fileKind × String)) (e : String)
    (k : fileKind) : Nat :=
  match dirFind dir e k with
  | some c => c.length
  | none => 0

/-- `hasPendingOutput`: unread bytes beyond either stream offset. -/
def hasPendingOutput (dir : List (String × fileKind × String)) (e : String)
    (st : execState) : Bool :=
  decide (st.stdoutOff < fileSize dir e .stdoutFile) ||
    decide (st.stderrOff < fileSize dir e .stderrFile)

/-- `strings.TrimSpace`: leading and trailing whitespace removed. -/
def goTrim (s : String) : String :=
  ⟨((s.data.dropWhile Char.isWhitespace).reverse.dropWhile
      Char.isWhitespace).reverse⟩

/-- The exit code parsed from the `.exit` file content: trimmed ASCII
decimal, anything unparsable (or empty) is 0. -/
def parseExitCode (data : String) : Int :=
  let v := goTrim data
  if v ≠ "" then
    match goParseInt v with
    | some n => n
    | none => 0
  else 0

/-- The record looked up for one entry's exec, created fresh on demand. -/
def stateFor (stMap : List (String × execState)) (e : String) : execState :=
  match alistFind e stMap with
  | some s => s
  | none => newExecState

/-- The start-event part of the entry loop: a `start` event the first time
any file of the exec is seen. -/
def startPart (sandboxID ts : String) (now : Int) (e : String)
    (st0 : execState) : execState × List streamerEvent :=
  if st0.startSent then (st0, [])
  else ({ st0 with startSent := true, lastActivity := now },
    [{ sandboxID := sandboxID, execID := e, type := "start"
       stream := "", data := "", exitCode := 0, time := ts }])

/-- The kind switch of the entry loop: `output` events for newly appended
bytes past the stored offset, and the `.exit` parse. -/
def kindPart (sandboxID ts : String) (now : Int) (e : String)
    (kind : fileKind) (content : String) (st1 : execState) :
    execState × List streamerEvent :=
  match kind with
  | .stdoutFile =>
    let data := content.drop st1.stdoutOff
    if data ≠ "" then
      ({ st1 with stdoutOff := st1.stdoutOff + data.length
                  lastActivity := now },
       [{ sandboxID := sandboxID, execID := e, type := "output"
          stream := "stdout", data := data, exitCode := 0, time := ts }])
    else (st1, [])
  | .stderrFile =>
    let data := content.drop st1.stderrOff
    if data ≠ "" then
      ({ st1 with stderrOff := st1.stderrOff + data.length
                  lastActivity := now },
       [{ sandboxID := sandboxID, execID := e, type := "output"
          stream := "stderr", data := data, exitCode := 0, time := ts }])
    else (st1, [])
  | .exitFile =>
    if st1.exitSent then (st1, [])
    else
      ({ st1 with exitSeen := true, exitCode := parseExitCode content }, [])

/-- Processing of one directory entry in `pump`'s first loop. -/
def processEntry (sandboxID : String) (now : Int) (ts : String)
    (stMap : List (String × execState))
    (entry : String × fileKind × String) :
    List (String × execState) × List streamerEvent :=
  let r1 := startPart sandboxID ts now entry.1 (stateFor stMap entry.1)
  let r2 := kindPart sandboxID ts now entry.1 entry.2.1 entry.2.2 r1.1
  (alistPut entry.1 r2.1 stMap, r1.2 ++ r2.2)

def processEntries (sandboxID : String) (now : Int) (ts : String) :
    List (String × fileKind × String) → List (String × execState) →
    List (String × execState) × List streamerEvent
  | [], stMap => (stMap, [])
  | entry :: rest, stMap =>
    let r1 := processEntry sandboxID now ts stMap entry
    let r2 := processEntries sandboxID now ts rest r1.1
    (r2.1, r1.2 ++ r2.2)

/-- The exit-emission decision of `pump`'s second loop for one exec. -/
def emitExit (dir : List (String × fileKind × String)) (sandboxID : String)
    (now : Int) (ts : String) (e : String) (st : execState) :
    execState × Option streamerEvent :=
  if st.exitSent then (st, none)
  else if ¬ st.exitSeen then (st, none)
  else if hasPendingOutput dir e st then ({ st with exitReadyAt := none }, none)
  else
    match st.exitReadyAt with
    | none => ({ st with exitReadyAt := some now }, none)
    | some t0 =>
      if now - t0 < 300 then (st, none)
      else ({ st with exitSent := true },
        some { sandboxID := sandboxID, execID := e, type := "exit"
               stream := "", data := "", exitCode := st.exitCode, time := ts })

def emitLoop (dir : List (String × fileKind × String)) (sandboxID : String)
    (now : Int) (ts : String) :
    List (String × execState) →
    List (String × execState) × List streamerEvent
  | [] => ([], [])
  | (e, st) :: rest =>
    let r1 := emitExit dir sandboxID now ts e st
    let r2 := emitLoop dir sandboxID now ts rest
    ((e, r1.1) :: r2.1,
     (match r1.2 with | some evt => [evt] | none => []) ++ r2.2)

/-- One `pump` pass: scan the directory entries, then decide exit
emissions against the same snapshot. -/
def pump (dir : List (String × fileKind × String)) (sandboxID : String)
    (now : Int) (ts : String) (stMap : List (String × execState)) :
    List (String × execState) × List streamerEvent :=
  let r1 := processEntries sandboxID now ts dir stMap
  let r2 := emitLoop dir sandboxID now ts r1.1
  (r2.1, r1.2 ++ r2.2)

/-- Run a sequence of pump passes, each with its own directory snapshot,
clock reading and timestamp. -/
def runPump (sandboxID : String) :
    List (List (String × fileKind × String) × Int × String) →
    List (String × execState) →
    List (String × execState) × List streamerEvent
  | [], stMap => (stMap, [])
  | (dir, now, ts) :: rest, stMap =>
    let r1 := pump dir sandboxID now ts stMap
    let r2 := runPump sandboxID rest r1.1
    (r2.1, r1.2 ++ r2.2)

/-- Count of exit events for one exec. -/
def countExit (evts : List streamerEvent) (e : String) : Nat :=
  evts.countP (fun evt => evt.execID = e && evt.type = "exit")

/-- `exitSent` of one exec in a state map (absent execs count as not
sent). -/
def exitSentOf (stMap : List (String × execState)) (e : String) : Bool :=
  match alistFind e stMap with
  | some st => st.exitSent
  | none => false

theorem alistFind_none_of_not_mem {α : Type} (k : String)
    (l : List (String × α)) (h : k ∉ l.map Prod.fst) :
    alistFind k l = none := by
  induction l with
  | nil => rfl
  | cons p rest ih =>
    obtain ⟨k2, v⟩ := p
    have hne : k2 ≠ k := by
      intro hc
      exact h (by simp [hc])
    simp only [alistFind, if_neg hne]
    exact ih (fun hc => h (by simp [hc]))

theorem alistFind_of_mem_nodup {α : Type} (k : String) (v : α)
    (l : List (String × α)) (hnd : (l.map Prod.fst).Nodup)
    (hmem : (k, v) ∈ l) : alistFind k l = some v := by
  induction l with
  | nil => simp at hmem
  | cons p rest ih =>
    obtain ⟨k2, v2⟩ := p
    rcases List.mem_cons.mp hmem with h | h
    · injection h with h1 h2
      subst h1
      subst h2
      simp [alistFind]
    · have hk2 : k2 ≠ k := by
        intro hc
        subst hc
        have : k2 ∈ rest.map Prod.fst := by
          exact List.mem_map.mpr ⟨(k2, v), h, rfl⟩
        exact (List.nodup_cons.mp (by simpa using hnd)).1 this
      simp only [alistFind, if_neg hk2]
      exact ih (List.nodup_cons.mp (by simpa using hnd)).2 h

theorem alistPut_keys_mem {α : Type} (k : String) (v : α)
    (l : List (String × α)) :
    ∀ x ∈ (alistPut k v l).map Prod.fst, x ∈ l.map Prod.fst ∨ x = k := by
  induction l with
  | nil => simp [alistPut]
  | cons p rest ih =>
    obtain ⟨k2, v2⟩ := p
    intro x hx
    by_cases hp : k2 = k
    · have hput : alistPut k v ((k2, v2) :: rest) = (k, v) :: rest := by
        simp [alistPut, hp]
      rw [hput] at hx
      simp only [List.map_cons, List.mem_cons] at hx
      rcases hx with h | h
      · exact Or.inr h
      · exact Or.inl (List.mem_cons_of_mem _ h)
    · have hput : alistPut k v ((k2, v2) :: rest)
          = (k2, v2) :: alistPut k v rest := by
        simp [alistPut, hp]
      rw [hput] at hx
      simp only [List.map_cons, List.mem_cons] at hx
      rcases hx with h | h
      · exact Or.inl (by simp [h])
      · rcases ih x h with h2 | h2
        · exact Or.inl (List.mem_cons_of_mem _ h2)
        · exact Or.inr h2

theorem alistPut_keys_nodup {α : Type} (k : String) (v : α)
    (l : List (String × α)) (hnd : (l.map Prod.fst).Nodup) :
    ((alistPut k v l).map Prod.fst).Nodup := by
  induction l with
  | nil => simp [alistPut]
  | cons p rest ih =>
    obtain ⟨k2, v2⟩ := p
    simp only [List.map_cons, List.nodup_cons] at hnd
    by_cases hp : k2 = k
    · have hput : alistPut k v ((k2, v2) :: rest) = (k, v) :: rest := by
        simp [alistPut, hp]
      rw [hput]
      simp only [List.map_cons, List.nodup_cons]
      exact ⟨by rw [← hp]; exact hnd.1, hnd.2⟩
    · have hput : alistPut k v ((k2, v2) :: rest)
          = (k2, v2) :: alistPut k v rest := by
        simp [alistPut, hp]
      rw [hput]
      simp only [List.map_cons, List.nodup_cons]
      refine ⟨?_, ih hnd.2⟩
      intro hc
      rcases alistPut_keys_mem k v rest k2 hc with h | h
      · exact hnd.1 h
      · exact hp h

theorem startPart_fields (sid ts : String) (now : Int) (e : String)
    (st0 : execState) :
    (startPart sid ts now e st0).1.exitSent = st0.exitSent ∧
    (startPart sid ts now e st0).1.exitSeen = st0.exitSeen ∧
    (startPart sid ts now e st0).1.exitCode = st0.exitCode := by
  unfold startPart
  by_cases h : st0.startSent = true <;> simp [h]

theorem startPart_events (sid ts : String) (now : Int) (e : String)
    (st0 : execState) :
    ∀ evt ∈ (startPart sid ts now e st0).2, evt.type = "start" := by
  unfold startPart
  by_cases h : st0.startSent = true <;> simp [h]

theorem kindPart_exitSent (sid ts : String) (now : Int) (e : String)
    (kind : fileKind) (content : String) (st1 : execState) :
    (kindPart sid ts now e kind content st1).1.exitSent = st1.exitSent := by
  cases kind <;> simp only [kindPart] <;> split_ifs <;> rfl

theorem kindPart_events (sid ts : String) (now : Int) (e : String)
    (kind : fileKind) (content : String) (st1 : execState) :
    ∀ evt ∈ (kindPart sid ts now e kind content st1).2,
      evt.type = "output" := by
  cases kind <;> simp only [kindPart] <;> split_ifs <;> simp

theorem kindPart_seen (sid ts : String) (now : Int) (e : String)
    (kind : fileKind) (content : String) (st1 : execState) :
    ((kindPart sid ts now e kind content st1).1.exitSeen = st1.exitSeen ∧
     (kindPart sid ts now e kind content st1).1.exitCode = st1.exitCode) ∨
    (kind = fileKind.exitFile ∧
     (kindPart sid ts now e kind content st1).1.exitSeen = true ∧
     (kindPart sid ts now e kind content st1).1.exitCode
       = parseExitCode content) := by
  cases kind with
  | stdoutFile =>
    left
    simp only [kindPart]
    split_ifs <;> exact ⟨rfl, rfl⟩
  | stderrFile =>
    left
    simp only [kindPart]
    split_ifs <;> exact ⟨rfl, rfl⟩
  | exitFile =>
    by_cases h : st1.exitSent = true
    · left
      simp only [kindPart]
      rw [if_pos h]
      exact ⟨rfl, rfl⟩
    · right
      refine ⟨rfl, ?_, ?_⟩ <;> simp only [kindPart] <;> rw [if_neg h]

theorem processEntry_find_ne (sid : String) (now : Int) (ts : String)
    (stMap : List (String × execState)) (entry : String × fileKind × String)
    (k : String) (h : k ≠ entry.1) :
    alistFind k (processEntry sid now ts stMap entry).1
      = alistFind k stMap := by
  unfold processEntry
  exact alistFind_put_ne k entry.1 _ _ h

theorem processEntry_find_self (sid : String) (now : Int) (ts : String)
    (stMap : List (String × execState))
    (entry : String × fileKind × String) :
    alistFind entry.1 (processEntry sid now ts stMap entry).1
      = some (kindPart sid ts now entry.1 entry.2.1 entry.2.2
          (startPart sid ts now entry.1 (stateFor stMap entry.1)).1).1 := by
  unfold processEntry
  exact alistFind_put_self entry.1 _ _

theorem exitSentOf_eq (stMap : List (String × execState)) (e : String) :
    exitSentOf stMap e = (stateFor stMap e).exitSent := by
  unfold exitSentOf stateFor
  cases alistFind e stMap with
  | none => simp [newExecState]
  | some st => rfl

theorem stateFor_processEntry_self (sid : String) (now : Int) (ts : String)
    (stMap : List (String × execState))
    (entry : String × fileKind × String) :
    stateFor (processEntry sid now ts stMap entry).1 entry.1
      = (kindPart sid ts now entry.1 entry.2.1 entry.2.2
          (startPart sid ts now entry.1 (stateFor stMap entry.1)).1).1 := by
  unfold stateFor
  rw [processEntry_find_self]
  rfl

theorem processEntry_events (sid : String) (now : Int) (ts : String)
    (stMap : List (String × execState))
    (entry : String × fileKind × String) :
    ∀ evt ∈ (processEntry sid now ts stMap entry).2,
      evt.type = "start" ∨ evt.type = "output" := by
  intro evt hevt
  unfold processEntry at hevt
  rcases List.mem_append.mp hevt with h | h
  · exact Or.inl (startPart_events _ _ _ _ _ evt h)
  · exact Or.inr (kindPart_events _ _ _ _ _ _ _ evt h)

theorem processEntry_exitSent (sid : String) (now : Int) (ts : String)
    (stMap : List (String × execState)) (entry : String × fileKind × String)
    (e : String) :
    exitSentOf (processEntry sid now ts stMap entry).1 e
      = exitSentOf stMap e := by
  by_cases hk : e = entry.1
  · subst hk
    rw [exitSentOf_eq, exitSentOf_eq, stateFor_processEntry_self,
      kindPart_exitSent,
      (startPart_fields sid ts now entry.1 (stateFor stMap entry.1)).1]
  · unfold exitSentOf
    rw [processEntry_find_ne _ _ _ _ _ _ hk]

theorem processEntry_keys (sid : String) (now : Int) (ts : String)
    (stMap : List (String × execState)) (entry : String × fileKind × String)
    (hnd : (stMap.map Prod.fst).Nodup) :
    (((processEntry sid now ts stMap entry).1).map Prod.fst).Nodup := by
  unfold processEntry
  exact alistPut_keys_nodup _ _ _ hnd

/-- The seen-exit invariant for one exec: a record flagged `exitSeen`
stores the parse of some `.exit` content covered by `A`. -/
def seenInv (e : String) (A : String → Prop)
    (stMap : List (String × execState)) : Prop :=
  ∀ st, alistFind e stMap = some st → st.exitSeen = true →
    ∃ c, A c ∧ st.exitCode = parseExitCode c

theorem processEntry_seenInv (sid : String) (now : Int) (ts : String)
    (stMap : List (String × execState)) (entry : String × fileKind × String)
    (e : String) (A : String → Prop)
    (hA : entry.1 = e → entry.2.1 = fileKind.exitFile → A entry.2.2)
    (hP : seenInv e A stMap) :
    seenInv e A (processEntry sid now ts stMap entry).1 := by
  intro st hfind hseen
  by_cases hk : e = entry.1
  · subst hk
    rw [processEntry_find_self] at hfind
    injection hfind with hst
    subst hst
    rcases kindPart_seen sid ts now entry.1 entry.2.1 entry.2.2
        (startPart sid ts now entry.1 (stateFor stMap entry.1)).1
      with hpres | hexit
    · rw [hpres.1,
        (startPart_fields sid ts now entry.1 (stateFor stMap entry.1)).2.1]
        at hseen
      rw [hpres.2,
        (startPart_fields sid ts now entry.1 (stateFor stMap entry.1)).2.2]
      unfold stateFor at hseen ⊢
      cases hf : alistFind entry.1 stMap with
      | none =>
        rw [hf] at hseen
        simp [newExecState] at hseen
      | some s =>
        rw [hf] at hseen
        exact hP s hf hseen
    · obtain ⟨hkind, _, hcode⟩ := hexit
      exact ⟨entry.2.2, hA rfl hkind, hcode⟩
  · rw [processEntry_find_ne _ _ _ _ _ _ hk] at hfind
    exact hP st hfind hseen

theorem processEntries_events (sid : String) (now : Int) (ts : String)
    (entries : List (String × fileKind × String))
    (stMap : List (String × execState)) :
    ∀ evt ∈ (processEntries sid now ts entries stMap).2,
      evt.type = "start" ∨ evt.type = "output" := by
  induction entries generalizing stMap with
  | nil => simp [processEntries]
  | cons entry rest ih =>
    intro evt hevt
    unfold processEntries at hevt
    rcases List.mem_append.mp hevt with h | h
    · exact processEntry_events _ _ _ _ _ evt h
    · exact ih _ evt h

theorem processEntries_exitSent (sid : String) (now : Int) (ts : String)
    (entries : List (String × fileKind × String))
    (stMap : List (String × execState)) (e : String) :
    exitSentOf (processEntries sid now ts entries stMap).1 e
      = exitSentOf stMap e := by
  induction entries generalizing stMap with
  | nil => rfl
  | cons entry rest ih =>
    unfold processEntries
    rw [ih, processEntry_exitSent]

theorem processEntries_keys (sid : String) (now : Int) (ts : String)
    (entries : List (String × fileKind × String))
    (stMap : List (String × execState))
    (hnd : (stMap.map Prod.fst).Nodup) :
    (((processEntries sid now ts entries stMap).1).map Prod.fst).Nodup := by
  induction entries generalizing stMap with
  | nil => exact hnd
  | cons entry rest ih =>
    unfold processEntries
    exact ih _ (processEntry_keys _ _ _ _ _ hnd)

theorem processEntries_seenInv (sid : String) (now : Int) (ts : String)
    (entries : List (String × fileKind × String))
    (stMap : List (String × execState)) (e : String) (A : String → Prop)
    (hA : ∀ c, (e, fileKind.exitFile, c) ∈ entries → A c)
    (hP : seenInv e A stMap) :
    seenInv e A (processEntries sid now ts entries stMap).1 := by
  induction entries generalizing stMap with
  | nil => exact hP
  | cons entry rest ih =>
    unfold processEntries
    refine ih _ (fun c hc => hA c (by simp [hc])) ?_
    refine processEntry_seenInv sid now ts stMap entry e A ?_ hP
    intro h1 h2
    apply hA
    rw [show (e, fileKind.exitFile, entry.2.2)
        = (entry.1, entry.2.1, entry.2.2) from by rw [h1, h2]]
    simp

theorem emitExit_fields (dir : List (String × fileKind × String))
    (sid : String) (now : Int) (ts e : String) (st : execState) :
    (emitExit dir sid now ts e st).1.exitSeen = st.exitSeen ∧
    (emitExit dir sid now ts e st).1.exitCode = st.exitCode := by
  obtain ⟨o1, o2, es, ss, ec, esn, la, era⟩ := st
  cases era <;> simp only [emitExit] <;> split_ifs <;> exact ⟨rfl, rfl⟩

theorem emitExit_cases (dir : List (String × fileKind × String))
    (sid : String) (now : Int) (ts e : String) (st : execState) :
    ((emitExit dir sid now ts e st).2 = none ∧
     (emitExit dir sid now ts e st).1.exitSent = st.exitSent) ∨
    (st.exitSent = false ∧ st.exitSeen = true ∧
     hasPendingOutput dir e st = false ∧
     (∃ t0, st.exitReadyAt = some t0 ∧ t0 + 300 ≤ now) ∧
     (emitExit dir sid now ts e st).1 = { st with exitSent := true } ∧
     (emitExit dir sid now ts e st).2 =
       some { sandboxID := sid, execID := e, type := "exit", stream := ""
              data := "", exitCode := st.exitCode, time := ts }) := by
  obtain ⟨o1, o2, es, ss, ec, esn, la, era⟩ := st
  cases era with
  | none =>
    simp only [emitExit]
    split_ifs <;> exact Or.inl ⟨rfl, rfl⟩
  | some t0 =>
    simp only [emitExit]
    split_ifs with h1 h2 h3 ht
    · exact Or.inl ⟨rfl, rfl⟩
    · exact Or.inl ⟨rfl, rfl⟩
    · exact Or.inl ⟨rfl, rfl⟩
    · refine Or.inr ⟨by simpa using h1, by simpa using h2, by simpa using h3,
        ⟨t0, rfl, by omega⟩, rfl, rfl⟩
    · exact Or.inl ⟨rfl, rfl⟩

theorem emitExit_some_spec (dir : List (String × fileKind × String))
    (sid : String) (now : Int) (ts e : String) (st : execState)
    (evt : streamerEvent)
    (h : (emitExit dir sid now ts e st).2 = some evt) :
    st.exitSent = false ∧ st.exitSeen = true ∧
    hasPendingOutput dir e st = false ∧
    (∃ t0, st.exitReadyAt = some t0 ∧ t0 + 300 ≤ now) ∧
    (emitExit dir sid now ts e st).1 = { st with exitSent := true } ∧
    evt = { sandboxID := sid, execID := e, type := "exit", stream := ""
            data := "", exitCode := st.exitCode, time := ts } := by
  rcases emitExit_cases dir sid now ts e st with hc | hc
  · rw [hc.1] at h
    exact absurd h (by simp)
  · obtain ⟨h1, h2, h3, h4, h5, h6⟩ := hc
    rw [h6] at h
    injection h with h7
    exact ⟨h1, h2, h3, h4, h5, h7.symm⟩

theorem emitLoop_keys (dir : List (String × fileKind × String))
    (sid : String) (now : Int) (ts : String)
    (l : List (String × execState)) :
    (emitLoop dir sid now ts l).1.map Prod.fst = l.map Prod.fst := by
  induction l with
  | nil => rfl
  | cons p rest ih =>
    obtain ⟨e, st⟩ := p
    simp only [emitLoop, List.map_cons]
    rw [ih]

theorem emitLoop_find (dir : List (String × fileKind × String))
    (sid : String) (now : Int) (ts : String)
    (l : List (String × execState)) (e : String) :
    alistFind e (emitLoop dir sid now ts l).1
      = Option.map (fun st => (emitExit dir sid now ts e st).1)
          (alistFind e l) := by
  induction l with
  | nil => rfl
  | cons p rest ih =>
    obtain ⟨e2, st⟩ := p
    by_cases h : e2 = e <;> simp [emitLoop, alistFind, h, ih]

theorem emitLoop_events (dir : List (String × fileKind × String))
    (sid : String) (now : Int) (ts : String)
    (l : List (String × execState)) :
    ∀ evt ∈ (emitLoop dir sid now ts l).2,
      ∃ e st, (e, st) ∈ l ∧ (emitExit dir sid now ts e st).2 = some evt := by
  induction l with
  | nil => simp [emitLoop]
  | cons p rest ih =>
    obtain ⟨e2, st2⟩ := p
    intro evt hevt
    have hev : (emitLoop dir sid now ts ((e2, st2) :: rest)).2
        = (match (emitExit dir sid now ts e2 st2).2 with
           | some evt => [evt] | none => [])
          ++ (emitLoop dir sid now ts rest).2 := rfl
    rw [hev] at hevt
    rcases List.mem_append.mp hevt with h | h
    · cases hr : (emitExit dir sid now ts e2 st2).2 with
      | none =>
        rw [hr] at h
        simp at h
      | some evt2 =>
        rw [hr] at h
        simp at h
        subst h
        exact ⟨e2, st2, by simp, hr⟩
    · obtain ⟨e, st, hmem, hsome⟩ := ih evt h
      exact ⟨e, st, by simp [hmem], hsome⟩

theorem countExit_append (a b : List streamerEvent) (e : String) :
    countExit (a ++ b) e = countExit a e + countExit b e :=
  List.countP_append _ _ _

theorem countExit_eq_zero (evts : List streamerEvent) (e : String)
    (h : ∀ evt ∈ evts, evt.execID ≠ e ∨ evt.type ≠ "exit") :
    countExit evts e = 0 := by
  unfold countExit
  rw [List.countP_eq_zero]
  intro evt hevt
  simp only [Bool.and_eq_true, decide_eq_true_eq, not_and]
  intro hid htype
  rcases h evt hevt with hc | hc
  · exact hc hid
  · exact hc htype

theorem processEntries_countExit (sid : String) (now : Int) (ts : String)
    (entries : List (String × fileKind × String))
    (stMap : List (String × execState)) (e : String) :
    countExit (processEntries sid now ts entries stMap).2 e = 0 := by
  apply countExit_eq_zero
  intro evt hevt
  rcases processEntries_events sid now ts entries stMap evt hevt with h | h <;>
    rw [h] <;> right <;> decide

theorem emitLoop_countExit_not_mem (dir : List (String × fileKind × String))
    (sid : String) (now : Int) (ts : String)
    (l : List (String × execState)) (e : String)
    (h : e ∉ l.map Prod.fst) :
    countExit (emitLoop dir sid now ts l).2 e = 0 := by
  apply countExit_eq_zero
  intro evt hevt
  obtain ⟨e2, st, hmem, hsome⟩ := emitLoop_events dir sid now ts l evt hevt
  obtain ⟨_, _, _, _, _, hevt2⟩ := emitExit_some_spec dir sid now ts e2 st evt hsome
  left
  rw [hevt2]
  intro hc
  exact h (hc ▸ List.mem_map.mpr ⟨(e2, st), hmem, rfl⟩)

theorem emitLoop_count (dir : List (String × fileKind × String))
    (sid : String) (now : Int) (ts : String) (e : String) :
    ∀ l : List (String × execState), (l.map Prod.fst).Nodup →
      countExit (emitLoop dir sid now ts l).2 e
          + (if exitSentOf l e then 1 else 0)
        ≤ (if exitSentOf (emitLoop dir sid now ts l).1 e then 1 else 0) := by
  intro l
  induction l with
  | nil =>
    intro _
    simp [emitLoop, exitSentOf, alistFind, countExit]
  | cons p rest ih =>
    intro hnd
    obtain ⟨e2, st2⟩ := p
    have hev : (emitLoop dir sid now ts ((e2, st2) :: rest)).2
        = (match (emitExit dir sid now ts e2 st2).2 with
           | some evt => [evt] | none => [])
          ++ (emitLoop dir sid now ts rest).2 := rfl
    have hmap : (emitLoop dir sid now ts ((e2, st2) :: rest)).1
        = (e2, (emitExit dir sid now ts e2 st2).1)
            :: (emitLoop dir sid now ts rest).1 := rfl
    by_cases hk : e2 = e
    · subst hk
      have hrest : e2 ∉ rest.map Prod.fst :=
        (List.nodup_cons.mp (by simpa using hnd)).1
      have hc2 : countExit (emitLoop dir sid now ts rest).2 e2 = 0 :=
        emitLoop_countExit_not_mem dir sid now ts rest e2 hrest
      have hfind1 : exitSentOf ((e2, st2) :: rest) e2 = st2.exitSent := by
        simp [exitSentOf, alistFind]
      have hfind2 : exitSentOf (emitLoop dir sid now ts ((e2, st2) :: rest)).1
          e2 = (emitExit dir sid now ts e2 st2).1.exitSent := by
        rw [hmap]
        simp [exitSentOf, alistFind]
      rw [hev, countExit_append, hfind1, hfind2, hc2]
      rcases emitExit_cases dir sid now ts e2 st2 with ⟨hn, hsent⟩ |
          ⟨h1, _, _, _, h5, h6⟩
      · rw [hn, hsent]
        cases hb : st2.exitSent <;> simp [countExit, hb]
      · rw [h6, h5, h1]
        simp [countExit]
    · have hc1 : countExit
          (match (emitExit dir sid now ts e2 st2).2 with
           | some evt => [evt] | none => []) e = 0 := by
        cases hr : (emitExit dir sid now ts e2 st2).2 with
        | none => simp [countExit]
        | some evt =>
          obtain ⟨_, _, _, _, _, h6⟩ :=
            emitExit_some_spec dir sid now ts e2 st2 evt hr
          subst h6
          simp [countExit, hk]
      have hfind1 : exitSentOf ((e2, st2) :: rest) e
          = exitSentOf rest e := by
        simp [exitSentOf, alistFind, hk]
      have hfind2 : exitSentOf (emitLoop dir sid now ts ((e2, st2) :: rest)).1
          e = exitSentOf (emitLoop dir sid now ts rest).1 e := by
        rw [hmap]
        simp [exitSentOf, alistFind, hk]
      rw [hev, countExit_append, hc1, hfind1, hfind2]
      have := ih (List.nodup_cons.mp (by simpa using hnd)).2
      omega

theorem pump_count (dir : List (String × fileKind × String))
    (sid : String) (now : Int) (ts : String)
    (stMap : List (String × execState)) (e : String)
    (hnd : (stMap.map Prod.fst).Nodup) :
    countExit (pump dir sid now ts stMap).2 e
        + (if exitSentOf stMap e then 1 else 0)
      ≤ (if exitSentOf (pump dir sid now ts stMap).1 e then 1 else 0) := by
  have h1 : (pump dir sid now ts stMap).2
      = (processEntries sid now ts dir stMap).2
        ++ (emitLoop dir sid now ts
              (processEntries sid now ts dir stMap).1).2 := rfl
  have h2 : (pump dir sid now ts stMap).1
      = (emitLoop dir sid now ts
          (processEntries sid now ts dir stMap).1).1 := rfl
  rw [h1, h2, countExit_append, processEntries_countExit,
    ← processEntries_exitSent sid now ts dir stMap e]
  have := emitLoop_count dir sid now ts e
    (processEntries sid now ts dir stMap).1
    (processEntries_keys sid now ts dir stMap hnd)
  omega

theorem pump_keys (dir : List (String × fileKind × String))
    (sid : String) (now : Int) (ts : String)
    (stMap : List (String × execState))
    (hnd : (stMap.map Prod.fst).Nodup) :
    (((pump dir sid now ts stMap).1).map Prod.fst).Nodup := by
  have h2 : (pump dir sid now ts stMap).1
      = (emitLoop dir sid now ts
          (processEntries sid now ts dir stMap).1).1 := rfl
  rw [h2, emitLoop_keys]
  exact processEntries_keys sid now ts dir stMap hnd

theorem runPump_keys (sid : String) :
    ∀ (passes : List (List (String × fileKind × String) × Int × String))
      (stMap : List (String × execState)),
      (stMap.map Prod.fst).Nodup →
      (((runPump sid passes stMap).1).map Prod.fst).Nodup := by
  intro passes
  induction passes with
  | nil => intro stMap hnd; exact hnd
  | cons p rest ih =>
    intro stMap hnd
    obtain ⟨dir, now, ts⟩ := p
    exact ih (pump dir sid now ts stMap).1 (pump_keys dir sid now ts stMap hnd)

theorem runPump_count (sid : String) (e : String) :
    ∀ (passes : List (List (String × fileKind × String) × Int × String))
      (stMap : List (String × execState)),
      (stMap.map Prod.fst).Nodup →
      countExit (runPump sid passes stMap).2 e
          + (if exitSentOf stMap e then 1 else 0)
        ≤ (if exitSentOf (runPump sid passes stMap).1 e then 1 else 0) := by
  intro passes
  induction passes with
  | nil =>
    intro stMap _
    simp [runPump, countExit]
  | cons p rest ih =>
    intro stMap hnd
    obtain ⟨dir, now, ts⟩ := p
    have hev : (runPump sid ((dir, now, ts) :: rest) stMap).2
        = (pump dir sid now ts stMap).2
          ++ (runPump sid rest (pump dir sid now ts stMap).1).2 := rfl
    have hst : (runPump sid ((dir, now, ts) :: rest) stMap).1
        = (runPump sid rest (pump dir sid now ts stMap).1).1 := rfl
    rw [hev, hst, countExit_append]
    have ha := pump_count dir sid now ts stMap e hnd
    have hb := ih (pump dir sid now ts stMap).1
      (pump_keys dir sid now ts stMap hnd)
    omega

theorem emitLoop_seenInv (dir : List (String × fileKind × String))
    (sid : String) (now : Int) (ts : String)
    (l : List (String × execState)) (e : String) (A : String → Prop)
    (hP : seenInv e A l) : seenInv e A (emitLoop dir sid now ts l).1 := by
  intro st hfind hseen
  rw [emitLoop_find] at hfind
  cases hf : alistFind e l with
  | none =>
    rw [hf] at hfind
    simp at hfind
  | some st0 =>
    rw [hf] at hfind
    simp only [Option.map] at hfind
    injection hfind with h
    subst h
    obtain ⟨hseen0, hcode0⟩ := emitExit_fields dir sid now ts e st0
    rw [hseen0] at hseen
    obtain ⟨c, hc, hcode⟩ := hP st0 hf hseen
    exact ⟨c, hc, by rw [hcode0, hcode]⟩

theorem pump_seenInv (dir : List (String × fileKind × String))
    (sid : String) (now : Int) (ts : String)
    (stMap : List (String × execState)) (e : String) (A : String → Prop)
    (hA : ∀ c, (e, fileKind.exitFile, c) ∈ dir → A c)
    (hP : seenInv e A stMap) :
    seenInv e A (pump dir sid now ts stMap).1 := by
  have h2 : (pump dir sid now ts stMap).1
      = (emitLoop dir sid now ts
          (processEntries sid now ts dir stMap).1).1 := rfl
  rw [h2]
  exact emitLoop_seenInv dir sid now ts _ e A
    (processEntries_seenInv sid now ts dir stMap e A hA hP)

theorem runPump_seenInv (sid : String) (e : String) (A : String → Prop) :
    ∀ (passes : List (List (String × fileKind × String) × Int × String))
      (stMap : List (String × execState)),
      (∀ c p, p ∈ passes → (e, fileKind.exitFile, c) ∈ p.1 → A c) →
      seenInv e A stMap → seenInv e A (runPump sid passes stMap).1 := by
  intro passes
  induction passes with
  | nil => intro stMap _ hP; exact hP
  | cons p rest ih =>
    intro stMap hA hP
    obtain ⟨dir, now, ts⟩ := p
    have hst : (runPump sid ((dir, now, ts) :: rest) stMap).1
        = (runPump sid rest (pump dir sid now ts stMap).1).1 := rfl
    rw [hst]
    exact ih (pump dir sid now ts stMap).1
      (fun c q hq hm => hA c q (List.mem_cons_of_mem _ hq) hm)
      (pump_seenInv dir sid now ts stMap e A
        (fun c hc => hA c (dir, now, ts) (List.mem_cons_self _ _) hc) hP)

theorem runPump_append (sid : String)
    (a b : List (List (String × fileKind × String) × Int × String)) :
    ∀ stMap : List (String × execState),
      runPump sid (a ++ b) stMap
        = ((runPump sid b (runPump sid a stMap).1).1,
           (runPump sid a stMap).2
             ++ (runPump sid b (runPump sid a stMap).1).2) := by
  induction a with
  | nil =>
    intro stMap
    simp [runPump]
  | cons p rest ih =>
    intro stMap
    obtain ⟨dir, now, ts⟩ := p
    simp only [List.cons_append, runPump, List.append_eq, ih,
      List.append_assoc]

/-- Claim C8: run from an empty state map over any trace of pump passes,
the forwarder emits at most one exit event per exec; and within any pass
of the trace (whose events are exactly that pass's slice of the run),
every exit event for an exec is emitted from a per-exec state in which
the `.exit` file has been seen — its parsed code being the exit code the
event carries, for an `.exit` content present in the current or an
earlier snapshot — no unread stdout/stderr bytes remain beyond the
stored offsets in that pass's snapshot, and the exit became ready at
least 300 ms before the pass's clock reading. -/
theorem sidecar_exit_discipline (sid e : String)
    (passes : List (List (String × fileKind × String) × Int × String)) :
    countExit (runPump sid passes []).2 e ≤ 1 ∧
    (∀ pre dir now ts post,
      passes = pre ++ (dir, now, ts) :: post →
      (runPump sid passes []).2
        = (runPump sid pre []).2
          ++ (pump dir sid now ts (runPump sid pre []).1).2
          ++ (runPump sid post
                (pump dir sid now ts (runPump sid pre []).1).1).2 ∧
      ∀ evt ∈ (pump dir sid now ts (runPump sid pre []).1).2,
        evt.execID = e → evt.type = "exit" →
        ∃ st,
          alistFind e (processEntries sid now ts dir
              (runPump sid pre []).1).1 = some st ∧
          st.exitSeen = true ∧
          hasPendingOutput dir e st = false ∧
          (∃ t0, st.exitReadyAt = some t0 ∧ t0 + 300 ≤ now) ∧
          evt.exitCode = st.exitCode ∧
          ∃ c, ((e, fileKind.exitFile, c) ∈ dir ∨
                ∃ p ∈ pre, (e, fileKind.exitFile, c) ∈ p.1) ∧
            st.exitCode = parseExitCode c) := by
  constructor
  · have h := runPump_count sid e passes [] (by simp)
    rw [show exitSentOf ([] : List (String × execState)) e = false
      from rfl] at h
    cases hb : exitSentOf (runPump sid passes []).1 e <;> rw [hb] at h <;>
      simp at h <;> omega
  · intro pre dir now ts post hsplit
    subst hsplit
    constructor
    · have hx : (runPump sid ((dir, now, ts) :: post)
            (runPump sid pre []).1).2
          = (pump dir sid now ts (runPump sid pre []).1).2
            ++ (runPump sid post
                  (pump dir sid now ts (runPump sid pre []).1).1).2 := rfl
      simp only [runPump_append, hx, List.append_assoc]
    · intro evt hevt hid htype
      have hpev : (pump dir sid now ts (runPump sid pre []).1).2
          = (processEntries sid now ts dir (runPump sid pre []).1).2
            ++ (emitLoop dir sid now ts
                (processEntries sid now ts dir (runPump sid pre []).1).1).2 :=
        rfl
      rw [hpev] at hevt
      rcases List.mem_append.mp hevt with h | h
      · rcases processEntries_events sid now ts dir _ evt h with ht2 | ht2 <;>
          rw [ht2] at htype <;> exact absurd htype (by decide)
      · obtain ⟨e2, st, hmem, hsome⟩ := emitLoop_events dir sid now ts _ evt h
        obtain ⟨hs1, hs2, hs3, hs4, _, hs6⟩ :=
          emitExit_some_spec dir sid now ts e2 st evt hsome
        have he2 : e2 = e := by
          rw [hs6] at hid
          exact hid
        subst he2
        have hnd : (((processEntries sid now ts dir
            (runPump sid pre []).1).1).map Prod.fst).Nodup :=
          processEntries_keys sid now ts dir _
            (runPump_keys sid pre [] (by simp))
        have hfind := alistFind_of_mem_nodup e2 st _ hnd hmem
        have hseenInv : seenInv e2 (fun c =>
            (e2, fileKind.exitFile, c) ∈ dir ∨
            ∃ p ∈ pre, (e2, fileKind.exitFile, c) ∈ p.1)
            (processEntries sid now ts dir (runPump sid pre []).1).1 := by
          apply processEntries_seenInv
          · intro c hc
            exact Or.inl hc
          · apply runPump_seenInv
            · intro c q hq hm
              exact Or.inr ⟨q, hq, hm⟩
            · intro st0 hf _
              simp [alistFind] at hf
        obtain ⟨c, hc, hcode⟩ := hseenInv st hfind hs2
        refine ⟨st, hfind, hs2, hs3, hs4, ?_, c, hc, hcode⟩
        rw [hs6]

theorem sidecar_exit_discipline_witness :
    countExit (runPump "sb"
        [([("e1", fileKind.exitFile, "7")], 1000, "t1"),
         ([("e1", fileKind.exitFile, "7")], 1400, "t2")] []).2 "e1" ≤ 1 ∧
    (∃ st,
      alistFind "e1" (processEntries "sb" 1400 "t2"
          [("e1", fileKind.exitFile, "7")]
          (runPump "sb" [([("e1", fileKind.exitFile, "7")], 1000, "t1")]
            []).1).1 = some st ∧
      st.exitSeen = true ∧
      hasPendingOutput [("e1", fileKind.exitFile, "7")] "e1" st = false ∧
      (∃ t0, st.exitReadyAt = some t0 ∧ t0 + 300 ≤ 1400) ∧
      ({ sandboxID := "sb", execID := "e1", type := "exit", stream := ""
         data := "", exitCode := 7, time := "t2" } : streamerEvent).exitCode
        = st.exitCode ∧
      ∃ c, ((("e1" : String), fileKind.exitFile, c)
            ∈ [(("e1" : String), fileKind.exitFile, "7")] ∨
            ∃ p ∈ [([(("e1" : String), fileKind.exitFile, "7")],
                (1000 : Int), "t1")],
              (("e1" : String), fileKind.exitFile, c) ∈ p.1) ∧
        st.exitCode = parseExitCode c) :=
  ⟨(sidecar_exit_discipline "sb" "e1"
      [([("e1", fileKind.exitFile, "7")], 1000, "t1"),
       ([("e1", fileKind.exitFile, "7")], 1400, "t2")]).1,
   ((sidecar_exit_discipline "sb" "e1"
      [([("e1", fileKind.exitFile, "7")], 1000, "t1"),
       ([("e1", fileKind.exitFile, "7")], 1400, "t2")]).2
      [([("e1", fileKind.exitFile, "7")], 1000, "t1")]
      [("e1", fileKind.exitFile, "7")] 1400 "t2" [] rfl).2
     { sandboxID := "sb", execID := "e1", type := "exit", stream := ""
       data := "", exitCode := 7, time := "t2" }
     (by
       rw [show (pump [("e1", fileKind.exitFile, "7")] "sb" 1400 "t2"
           (runPump "sb" [([("e1", fileKind.exitFile, "7")], 1000, "t1")]
             []).1).2
         = [{ sandboxID := "sb", execID := "e1", type := "exit", stream := ""
              data := "", exitCode := 7, time := "t2" }] from rfl]
       exact List.mem_singleton_self _)
     rfl rfl⟩
